import Mathlib

/-!
A verification development for the scene compiler of `go-pathtrace`
(`scene/compiler/compiler.go`).  The Go source is embedded shallowly:

* Pure helpers (`align4`) and the stage functions (`Compile`, `bakeTextures`,
  `partitionGeometry`, `setupCamera`) are translated directly from the source.
* Code of the repository that only the compiler calls (the generic `BuildBVH`
  builder, the `scene.BvhNode` accessors, `types.Mat4.Inv`, `types.Vec3.Vec4`,
  `scene.NewCamera`) is not part of the given sources; those definitions are
  modelled from the specification and are marked `Modelled from the spec:` in
  their doc comments.
* Go slices become `List`s; Go floating point numbers are modelled as exact
  rationals (`ℚ`).
* Go `uint32` arithmetic on data sizes (the return value of `align4`, the
  texture-offset accumulators, the vertex/primitive write cursors, the
  primitive count stored on a leaf) is modelled with an explicit `% 2^32`.
  The `int32`/`uint32` casts applied to BVH node-array lengths and child
  indices when node arrays are merged are modelled as exact: those casts are
  the identity for every node array shorter than `2^31` entries and no
  statement below concerns the node count itself overflowing.
* A Go runtime panic (out-of-range slice index, `workList[0]` on an empty
  work list) is modelled as `Option.none`; a returned Go `error` value is a
  distinct outcome (`GoResult.err`).  An in-place write through `List.set`
  out of bounds would be a silent no-op where Go panics, but every write the
  compiler performs is proved to be in bounds.
-/

/-- `2^32`, the modulus of Go `uint32` arithmetic. -/
def U32MOD : Nat := 4294967296

/-- The loop body of `align4` (compiler.go lines 189-196).  The Go loop
`for { if value%4 == 0 { return uint32(value) }; value++ }` increments until
the value is divisible by four; since one of `value .. value+3` is always
divisible by four, the unbounded loop is equivalent to this structurally
recursive function started with fuel `4` (the fuel is never exhausted).
The `uint32` conversion at the `return` is the `% 2^32`. -/
def align4loop : Nat → Nat → Nat
  | 0, value => value % U32MOD
  | fuel + 1, value => if value % 4 = 0 then value % U32MOD else align4loop fuel (value + 1)

/-- `align4` (compiler.go lines 188-196): adjust `value` so it is divisible
by 4, returned as a Go `uint32`. -/
def align4 (value : Nat) : Nat := align4loop 4 value

/-- The mathematical (untruncated) alignment: the smallest multiple of 4
that is `≥ n`.  Used to state what `align4` computes before its `uint32`
return conversion truncates. -/
def alignN (n : Nat) : Nat := n + (4 - n % 4) % 4

theorem align4loop_succ (fuel value : Nat) :
    align4loop (fuel + 1) value =
      if value % 4 = 0 then value % U32MOD else align4loop fuel (value + 1) := rfl

/-- `align4` computes the mathematical alignment reduced mod `2^32`. -/
theorem align4_eq_alignN_mod (n : Nat) : align4 n = alignN n % U32MOD := by
  have h4 : n % 4 < 4 := Nat.mod_lt _ (by omega)
  have h := Nat.mod_lt n (show 0 < 4 by omega)
  show align4loop 4 n = alignN n % U32MOD
  have hcases : n % 4 = 0 ∨ n % 4 = 1 ∨ n % 4 = 2 ∨ n % 4 = 3 := by omega
  rcases hcases with h0 | h1 | h2 | h3
  · rw [align4loop_succ, if_pos h0]
    unfold alignN U32MOD; omega
  · have e1 : (n + 1) % 4 = 2 := by omega
    have e2 : (n + 2) % 4 = 3 := by omega
    have e3 : (n + 3) % 4 = 0 := by omega
    rw [align4loop_succ, if_neg (by omega), align4loop_succ, if_neg (by omega),
      align4loop_succ, if_neg (by omega), align4loop_succ, if_pos e3]
    unfold alignN U32MOD; omega
  · have e3 : (n + 2) % 4 = 0 := by omega
    rw [align4loop_succ, if_neg (by omega), align4loop_succ, if_neg (by omega),
      align4loop_succ, if_pos e3]
    unfold alignN U32MOD; omega
  · have e3 : (n + 1) % 4 = 0 := by omega
    rw [align4loop_succ, if_neg (by omega), align4loop_succ, if_pos e3]
    unfold alignN U32MOD; omega

theorem alignN_ge (n : Nat) : n ≤ alignN n := by unfold alignN; omega

theorem alignN_mod_four (n : Nat) : alignN n % 4 = 0 := by unfold alignN; omega

theorem alignN_idem (n : Nat) : alignN (alignN n) = alignN n := by unfold alignN; omega

theorem alignN_le_of_le {n m : Nat} (hm : m % 4 = 0) (hnm : n ≤ m) : alignN n ≤ m := by
  unfold alignN; omega

/-- Below `2^32 - 4` the `uint32` conversion in `align4` is the identity. -/
theorem align4_eq_alignN {n : Nat} (h : n ≤ U32MOD - 4) : align4 n = alignN n := by
  rw [align4_eq_alignN_mod]
  have : alignN n < U32MOD := by unfold alignN U32MOD at *; omega
  exact Nat.mod_eq_of_lt this

/-- 2-component float vector (`types.Vec2`), modelled over `ℚ`. -/
abbrev Vec2 : Type := ℚ × ℚ

/-- 3-component float vector (`types.Vec3`), modelled over `ℚ`. -/
structure Vec3 where
  x : ℚ
  y : ℚ
  z : ℚ
deriving DecidableEq

/-- 4-component float vector (`types.Vec4`), modelled over `ℚ`. -/
structure Vec4 where
  x : ℚ
  y : ℚ
  z : ℚ
  w : ℚ
deriving DecidableEq

/-- Modelled from the spec: `types.Vec3.Vec4` (not under `src/`) promotes a
3-component vector to 4 components, the caller choosing the 4th component
(the compiler always passes `0`). -/
def Vec3.Vec4 (v : Vec3) (w : ℚ) : Vec4 := ⟨v.x, v.y, v.z, w⟩

/-- 4x4 float matrix (`types.Mat4`), modelled over `ℚ`. -/
abbrev Mat4 : Type := Matrix (Fin 4) (Fin 4) ℚ

/-- Modelled from the spec: `types.Mat4.Inv` (not under `src/`), "the
inverse of the authored transform".  Modelled as the exact matrix inverse
over `ℚ` (adjugate over determinant); for a singular matrix this yields a
junk matrix, just as the floating-point division in Go yields junk. -/
def Mat4inv (m : Mat4) : Mat4 := m.det⁻¹ • m.adjugate

/-- A parsed texture (`scene.ParsedTexture`): format tag, dimensions and the
raw byte payload (bytes as `Nat`). -/
structure ParsedTexture where
  Format : Nat
  Width : Nat
  Height : Nat
  Data : List Nat
deriving DecidableEq

/-- A parsed triangle primitive (`scene.ParsedPrimitive`): 3 vertex
positions, 3 normals, per-vertex UV coordinates and a material index.
The spec declares "2-3 UV coords"; the model carries three so that the
fate of a third authored UV coordinate can be observed. -/
structure ParsedPrimitive where
  Vertices : Vec3 × Vec3 × Vec3
  Normals : Vec3 × Vec3 × Vec3
  UVs : Vec2 × Vec2 × Vec2
  MaterialIndex : Nat
deriving DecidableEq

/-- A parsed mesh (`scene.ParsedMesh`): an ordered sequence of primitives. -/
structure ParsedMesh where
  Primitives : List ParsedPrimitive
deriving DecidableEq

/-- A parsed mesh instance (`scene.ParsedMeshInstance`): a mesh index and a
4x4 world transform. -/
structure ParsedMeshInstance where
  MeshIndex : Nat
  Transform : Mat4

/-- The parsed camera specification. -/
structure ParsedCamera where
  FOV : ℚ
  Eye : Vec3
  Look : Vec3
  Up : Vec3
deriving DecidableEq

/-- The parsed scene (`scene.ParsedScene`) consumed by `Compile`. -/
structure ParsedScene where
  Textures : List ParsedTexture
  Meshes : List ParsedMesh
  MeshInstances : List ParsedMeshInstance
  Camera : ParsedCamera

/-- A texture metadata entry (`scene.TextureMetadata`). -/
structure TextureMetadata where
  Format : Nat
  Width : Nat
  Height : Nat
  DataOffset : Nat
deriving DecidableEq

/-- Modelled from the spec: a BVH node (`scene.BvhNode`, not under `src/`).
A node is either internal, holding two child indices into the node array it
lives in, or a leaf holding a primitive range (mesh-level tree) or the index
of the single mesh instance it covers (top-level tree).  The geometric
bounds stored on a real node play no role in any statement below and are
omitted. -/
inductive BvhNode where
  | node (left right : Nat) : BvhNode
  | leafPrims (primOffset primCount : Nat) : BvhNode
  | leafInstance (instIndex : Nat) : BvhNode
deriving DecidableEq

/-- Modelled from the spec: `scene.BvhNode.OffsetChildNodes` rebases the
child indices of an internal node; the payload of a leaf holds no child
index and is untouched. -/
def BvhNode.offsetChildNodes (n : BvhNode) (offset : Nat) : BvhNode :=
  match n with
  | .node l r => .node (l + offset) (r + offset)
  | other => other

/-- A compiled mesh instance (`scene.MeshInstance`). -/
structure MeshInstance where
  MeshIndex : Nat
  BvhRoot : Nat
  Transform : Mat4

/-- The compiled camera (`scene.Camera`): the fields the compiler fills. -/
structure Camera where
  FOV : ℚ
  Position : Vec3
  LookAt : Vec3
  Up : Vec3
deriving DecidableEq

/-- The optimized output scene (`scene.Scene`): the fields the compiler
fills. -/
structure Scene where
  TextureData : List Nat
  TextureMetadata : List TextureMetadata
  BvhNodeList : List BvhNode
  VertexList : List Vec4
  NormalList : List Vec4
  UvList : List Vec2
  MaterialIndex : List Nat
  MeshInstanceList : List MeshInstance
  Camera : Camera

/-- The outcome of a Go call: a normal return, a non-nil `error` return, or
a runtime panic that aborts the whole program. -/
inductive GoResult (α : Type) where
  | ok : α → GoResult α
  | err : String → GoResult α
  | panicked : GoResult α

/-- Whether a `GoResult` is a non-nil returned `error`. -/
def GoResult.isErr {α : Type} : GoResult α → Bool
  | .err _ => true
  | _ => false

/-- Whether a `GoResult` is a normal return. -/
def GoResult.isOk {α : Type} : GoResult α → Bool
  | .ok _ => true
  | _ => false

/-- Whether a `GoResult` is a runtime panic. -/
def GoResult.isPanic {α : Type} : GoResult α → Bool
  | .panicked => true
  | _ => false

/-- Go's `copy(dst[off:], src)`: overwrite `dst` starting at `off` with as
much of `src` as fits; the length of `dst` never changes. -/
def listCopyAt (dst : List Nat) (off : Nat) (src : List Nat) : List Nat :=
  dst.take off ++ src.take (dst.length - off) ++ dst.drop (off + (src.take (dst.length - off)).length)

/-- The first loop of `bakeTextures` (compiler.go lines 56-59): the total
padded data length, accumulated in a `uint32`. -/
def totalDataLenOf (textures : List ParsedTexture) : Nat :=
  textures.foldl (fun acc tex => (acc + align4 tex.Data.length) % U32MOD) 0

/-- The second loop of `bakeTextures` (compiler.go lines 63-74): walk the
textures in order, record a metadata entry carrying the running offset, copy
the payload into the shared buffer at that offset, and advance the offset by
the padded length (`uint32` arithmetic).  The Go loop assigns
`TextureMetadata[index]` in increasing index order into a pre-allocated
slice, which is the same as appending in order. -/
def bakeTexturesLoop :
    Nat → List Nat → List TextureMetadata → List ParsedTexture →
      List Nat × List TextureMetadata
  | _, data, meta, [] => (data, meta)
  | offset, data, meta, tex :: rest =>
      bakeTexturesLoop ((offset + align4 tex.Data.length) % U32MOD)
        (listCopyAt data offset tex.Data)
        (meta ++ [{ Format := tex.Format, Width := tex.Width, Height := tex.Height,
                    DataOffset := offset }])
        rest

/-- `bakeTextures` (compiler.go lines 53-77): allocate a zeroed buffer of
the total padded length and fill it, producing the buffer and the metadata
list. -/
def bakeTextures (ps : ParsedScene) : List Nat × List TextureMetadata :=
  bakeTexturesLoop 0 (List.replicate (totalDataLenOf ps.Textures) 0) [] ps.Textures

/-- The leaf threshold constant (compiler.go line 11). -/
def minPrimitivesPerLeaf : Nat := 10

/-- Modelled from the spec: the recursive body of `BuildBVH` (not under
`src/`).  Per spec section 4.2: if the current subset has at most `T`
volumes, emit a leaf and invoke the leaf-finalization callback with the
subset; otherwise split the subset into two roughly equal halves, recurse,
and emit an internal node whose children are positions within the array
built by this call.  The root of the returned array is at index 0 (the
caller in `partitionGeometry` records the pre-append length of the global
array as the mesh's root index, which is only correct for a root-first
layout).  The longest-axis / median-centroid ordering is a floating-point
heuristic that merely permutes the work list before it is halved; no
statement below depends on the permutation, so the model halves the list in
input order (a deterministic instance of the spec's "two roughly equal
halves").  The callback threads a state and may fail (`none` models a Go
panic inside the callback); the recursion is driven by fuel, which a list
of `n` volumes can never exhaust when started at `n` because each half is
strictly smaller than the whole. -/
def buildBVHAux {V σ : Type} (T : Nat) (cb : σ → List V → Option (BvhNode × σ)) :
    Nat → List V → σ → Option (List BvhNode × σ)
  | 0, vols, s =>
      match cb s vols with
      | none => none
      | some (n, s1) => some ([n], s1)
  | fuel + 1, vols, s =>
      if vols.length ≤ T then
        match cb s vols with
        | none => none
        | some (n, s1) => some ([n], s1)
      else
        match buildBVHAux T cb fuel (vols.take (vols.length / 2)) s with
        | none => none
        | some (leftNodes, s1) =>
          match buildBVHAux T cb fuel (vols.drop (vols.length / 2)) s1 with
          | none => none
          | some (rightNodes, s2) =>
            some (BvhNode.node 1 (1 + leftNodes.length) ::
              (leftNodes.map (fun n => n.offsetChildNodes 1) ++
                rightNodes.map (fun n => n.offsetChildNodes (1 + leftNodes.length))), s2)

/-- Modelled from the spec: `BuildBVH` (not under `src/`), see
`buildBVHAux`. -/
def BuildBVH {V σ : Type} (vols : List V) (T : Nat)
    (cb : σ → List V → Option (BvhNode × σ)) (s : σ) : Option (List BvhNode × σ) :=
  buildBVHAux T cb vols.length vols s

/-- The leaf callback of the instance-level build (compiler.go lines
89-99): read `workList[0]` (a panic, hence `none`, on an empty work list)
and store the index of that instance within `parsedScene.MeshInstances` on
the node.  Go resolves the index by comparing pointers; since the work list
is built from the distinct elements of `MeshInstances`, the model passes
each instance's index as its volume, so the first (and only) pointer match
is the index itself. -/
def instLeafCb : Unit → List Nat → Option (BvhNode × Unit)
  | _, [] => none
  | _, index :: _ => some (.leafInstance index, ())

/-- The mutable state captured by the mesh-level leaf callback (compiler.go
lines 101-147): the two `uint32` write cursors and the four flat output
arrays. -/
structure GeomState where
  vertexOffset : Nat
  primOffset : Nat
  VertexList : List Vec4
  NormalList : List Vec4
  UvList : List Vec2
  MaterialIndex : List Nat

/-- The body of the `for _, workItem := range workList` loop (compiler.go
lines 127-146): write the primitive's three vertices and three normals
(promoted to 4 components with a zero 4th component) at the next three
vertex slots, its first two UV coordinates at the first two of those slots,
its material index at the primitive slot, then advance both `uint32`
cursors. -/
def primStep (st : GeomState) (prim : ParsedPrimitive) : GeomState :=
  { vertexOffset := (st.vertexOffset + 3) % U32MOD
    primOffset := (st.primOffset + 1) % U32MOD
    VertexList :=
      ((st.VertexList.set st.vertexOffset (prim.Vertices.1.Vec4 0)).set
        (st.vertexOffset + 1) (prim.Vertices.2.1.Vec4 0)).set
        (st.vertexOffset + 2) (prim.Vertices.2.2.Vec4 0)
    NormalList :=
      ((st.NormalList.set st.vertexOffset (prim.Normals.1.Vec4 0)).set
        (st.vertexOffset + 1) (prim.Normals.2.1.Vec4 0)).set
        (st.vertexOffset + 2) (prim.Normals.2.2.Vec4 0)
    UvList :=
      (st.UvList.set st.vertexOffset prim.UVs.1).set
        (st.vertexOffset + 1) prim.UVs.2.1
    MaterialIndex := st.MaterialIndex.set st.primOffset prim.MaterialIndex }

/-- The mesh-level leaf callback (compiler.go lines 123-147): record the
primitive range `{primOffset, uint32(len(workList))}` on the node using the
global primitive cursor, then flatten every primitive of the work list in
order. -/
def meshLeafCb (st : GeomState) (workList : List ParsedPrimitive) :
    Option (BvhNode × GeomState) :=
  some (.leafPrims st.primOffset (workList.length % U32MOD), workList.foldl primStep st)

/-- The pre-allocation of the flat arrays (compiler.go lines 108-111): all
slots zeroed, `MaterialIndex` holding `totalVertices/3` entries. -/
def initGeomState (totalVertices : Nat) : GeomState :=
  { vertexOffset := 0
    primOffset := 0
    VertexList := List.replicate totalVertices ⟨0, 0, 0, 0⟩
    NormalList := List.replicate totalVertices ⟨0, 0, 0, 0⟩
    UvList := List.replicate totalVertices (0, 0)
    MaterialIndex := List.replicate (totalVertices / 3) 0 }

/-- The size computation of compiler.go lines 103-106:
`totalVertices += 3 * len(pm.Primitives)` over all meshes (a Go `int`). -/
def totalVerticesOf (meshes : List ParsedMesh) : Nat :=
  meshes.foldl (fun acc pm => acc + 3 * pm.Primitives.length) 0

/-- The per-mesh loop (compiler.go lines 114-156): build a BVH over the
mesh's primitives, record the pre-append length of the global node list as
the mesh's root index, rebase every child index of the fresh nodes by that
length, and append them to the global list. -/
def meshLoop (gs : GeomState) (nodes : List BvhNode) (roots : List Nat) :
    List ParsedMesh → Option (GeomState × List BvhNode × List Nat)
  | [] => some (gs, nodes, roots)
  | pm :: rest =>
      match BuildBVH pm.Primitives minPrimitivesPerLeaf meshLeafCb gs with
      | none => none
      | some (bvhNodes, gs1) =>
        meshLoop gs1 (nodes ++ bvhNodes.map (fun n => n.offsetChildNodes nodes.length))
          (roots ++ [nodes.length]) rest

/-- The mesh-instance loop (compiler.go lines 159-167): for each parsed
instance copy its mesh index, look up `meshBvhRoots[pmi.MeshIndex]` (a Go
panic, hence `none`, when the mesh index is out of range) and store the
inverse of the authored transform.  The Go loop assigns into a
pre-allocated slice in increasing index order, the same as building the
list in order. -/
def instanceLoop (roots : List Nat) : List ParsedMeshInstance → Option (List MeshInstance)
  | [] => some []
  | pmi :: rest =>
      match roots[pmi.MeshIndex]? with
      | none => none
      | some root =>
        match instanceLoop roots rest with
        | none => none
        | some others =>
          some ({ MeshIndex := pmi.MeshIndex, BvhRoot := root,
                  Transform := Mat4inv pmi.Transform } :: others)

/-- Everything `partitionGeometry` stores on the optimized scene, plus the
local `meshBvhRoots` slice (compiler.go line 116). -/
structure GeomOut where
  BvhNodeList : List BvhNode
  VertexList : List Vec4
  NormalList : List Vec4
  UvList : List Vec2
  MaterialIndex : List Nat
  MeshInstanceList : List MeshInstance
  meshBvhRoots : List Nat

/-- `partitionGeometry` (compiler.go lines 82-170): build the top-level BVH
over the mesh instances (threshold 1), pre-allocate the flat arrays, build
and merge one BVH per mesh, then resolve every mesh instance.  `none`
models a Go panic escaping the function; on normal completion the Go
function returns a nil error. -/
def partitionGeometry (ps : ParsedScene) : Option GeomOut :=
  match BuildBVH (List.range ps.MeshInstances.length) 1 instLeafCb () with
  | none => none
  | some (instNodes, _) =>
    match meshLoop (initGeomState (totalVerticesOf ps.Meshes)) instNodes [] ps.Meshes with
    | none => none
    | some (gs, nodes, roots) =>
      match instanceLoop roots ps.MeshInstances with
      | none => none
      | some instances =>
        some { BvhNodeList := nodes
               VertexList := gs.VertexList
               NormalList := gs.NormalList
               UvList := gs.UvList
               MaterialIndex := gs.MaterialIndex
               MeshInstanceList := instances
               meshBvhRoots := roots }

/-- Modelled from the spec: `scene.NewCamera` (not under `src/`) creates a
camera from a field of view; `setupCamera` then overwrites the position and
orientation fields, so only the FOV copy is observable. -/
def NewCamera (fov : ℚ) : Camera :=
  { FOV := fov, Position := ⟨0, 0, 0⟩, LookAt := ⟨0, 0, 0⟩, Up := ⟨0, 0, 0⟩ }

/-- `setupCamera` (compiler.go lines 179-186): copy the parsed camera's
fields verbatim; always returns a nil error. -/
def setupCamera (ps : ParsedScene) : Camera :=
  { NewCamera ps.Camera.FOV with
      Position := ps.Camera.Eye
      LookAt := ps.Camera.Look
      Up := ps.Camera.Up }

/-- `createLayeredMaterialTrees` (compiler.go lines 174-176): always fails
with an explicit error.  `Compile` does not invoke it (the call is
commented out in the source). -/
def createLayeredMaterialTrees : GoResult Unit :=
  .err "sceneCompiler: createLayeredMaterialTrees() not yet implemented"

/-- The stage wrapper for `bakeTextures`: the Go method stores its results
on the compiler and returns a nil error. -/
def bakeTexturesStage (ps : ParsedScene) : GoResult (List Nat × List TextureMetadata) :=
  .ok (bakeTextures ps)

/-- The stage wrapper for `partitionGeometry`: a nil error on completion, a
propagating panic otherwise. -/
def partitionGeometryStage (ps : ParsedScene) : GoResult GeomOut :=
  match partitionGeometry ps with
  | some g => .ok g
  | none => .panicked

/-- The stage wrapper for `setupCamera`: always a nil error. -/
def setupCameraStage (ps : ParsedScene) : GoResult Camera :=
  .ok (setupCamera ps)

/-- `Compile` (compiler.go lines 21-49): run the stages in order, stopping
at the first non-nil error (`if err != nil { return nil, err }`); a panic in
a stage aborts the whole call.  The commented-out
`createLayeredMaterialTrees` stage is not run. -/
def Compile (ps : ParsedScene) : GoResult Scene :=
  match bakeTexturesStage ps with
  | .err e => .err e
  | .panicked => .panicked
  | .ok (texData, texMeta) =>
    match partitionGeometryStage ps with
    | .err e => .err e
    | .panicked => .panicked
    | .ok g =>
      match setupCameraStage ps with
      | .err e => .err e
      | .panicked => .panicked
      | .ok cam =>
        .ok { TextureData := texData
              TextureMetadata := texMeta
              BvhNodeList := g.BvhNodeList
              VertexList := g.VertexList
              NormalList := g.NormalList
              UvList := g.UvList
              MaterialIndex := g.MaterialIndex
              MeshInstanceList := g.MeshInstanceList
              Camera := cam }

/-- The total number of primitives of a parsed scene. -/
def totalPrims (ps : ParsedScene) : Nat :=
  (ps.Meshes.map (fun pm => pm.Primitives.length)).sum

/-- All primitives of a scene, meshes in order, primitives in order. -/
def allPrims (ps : ParsedScene) : List ParsedPrimitive :=
  (ps.Meshes.map (fun pm => pm.Primitives)).flatten

/-- The `{primitiveOffset, primitiveCount}` ranges recorded on the
mesh-level leaf nodes of a node list, in node-list order (which coincides
with leaf-callback invocation order for the arrays `BuildBVH` produces). -/
def leafRanges (nodes : List BvhNode) : List (Nat × Nat) :=
  nodes.filterMap (fun n =>
    match n with
    | .leafPrims o c => some (o, c)
    | _ => none)

/-- `rangesChainB cur total rs` checks that the ranges `rs` are adjacent
(each starts where the previous one ended, beginning at `cur`) and end
exactly at `total`: they partition `[cur, total)`. -/
def rangesChainB (cur total : Nat) : List (Nat × Nat) → Bool
  | [] => cur == total
  | (o, c) :: rest => o == cur && rangesChainB (cur + c) total rest

/-- Every internal node's child indices are strictly below the length of
the node list it is stored in. -/
def childrenOkB (nodes : List BvhNode) : Bool :=
  nodes.all (fun n =>
    match n with
    | .node l r => decide (l < nodes.length) && decide (r < nodes.length)
    | _ => true)

/-- Whether `Compile` returns a scene for this input. -/
def compiledOkB (ps : ParsedScene) : Bool := (Compile ps).isOk

/-- The `BvhNodeList` of the compiled scene (empty if compilation aborts). -/
def compiledNodes (ps : ParsedScene) : List BvhNode :=
  match Compile ps with
  | .ok s => s.BvhNodeList
  | _ => []

/-- The `VertexList` of the compiled scene. -/
def compiledVertexList (ps : ParsedScene) : List Vec4 :=
  match Compile ps with
  | .ok s => s.VertexList
  | _ => []

/-- The `NormalList` of the compiled scene. -/
def compiledNormalList (ps : ParsedScene) : List Vec4 :=
  match Compile ps with
  | .ok s => s.NormalList
  | _ => []

/-- The `UvList` of the compiled scene. -/
def compiledUvList (ps : ParsedScene) : List Vec2 :=
  match Compile ps with
  | .ok s => s.UvList
  | _ => []

/-- The `MaterialIndex` list of the compiled scene. -/
def compiledMaterialIndex (ps : ParsedScene) : List Nat :=
  match Compile ps with
  | .ok s => s.MaterialIndex
  | _ => []

/-- The `MeshInstanceList` of the compiled scene. -/
def compiledInstances (ps : ParsedScene) : List MeshInstance :=
  match Compile ps with
  | .ok s => s.MeshInstanceList
  | _ => []

/-- The local `meshBvhRoots` slice as `partitionGeometry` left it. -/
def geomRoots (ps : ParsedScene) : List Nat :=
  match partitionGeometry ps with
  | some g => g.meshBvhRoots
  | none => []

/-- The node array of the top-level instance BVH. -/
def instNodesOf (ps : ParsedScene) : List BvhNode :=
  match BuildBVH (List.range ps.MeshInstances.length) 1 instLeafCb () with
  | some (ns, _) => ns
  | none => []

/-- The geometry-write state just before mesh `m` is flattened: the effect
of flattening all primitives of the preceding meshes. -/
def stateBeforeMesh (ps : ParsedScene) (m : Nat) : GeomState :=
  (((ps.Meshes.take m).map (fun pm => pm.Primitives)).flatten).foldl primStep
    (initGeomState (totalVerticesOf ps.Meshes))

/-- The node array mesh `m`'s own `BuildBVH` call returns (before it is
rebased and merged); empty if `m` is out of range. -/
def meshLocalNodes (ps : ParsedScene) (m : Nat) : List BvhNode :=
  match ps.Meshes[m]? with
  | none => []
  | some pm =>
    match BuildBVH pm.Primitives minPrimitivesPerLeaf meshLeafCb (stateBeforeMesh ps m) with
    | some (ns, _) => ns
    | none => []

/-- The position at which mesh `m`'s BVH root lands in the final merged
node list: the instance-level nodes come first, then the node arrays of the
preceding meshes, and each mesh's root is the first node of its own
array. -/
def rootPosition (ps : ParsedScene) (m : Nat) : Nat :=
  (instNodesOf ps).length +
    ((List.range m).map (fun k => (meshLocalNodes ps k).length)).sum

/-- The padded-offset prefix sum: where texture `i`'s payload starts. -/
def texOffset (textures : List ParsedTexture) (i : Nat) : Nat :=
  ((textures.take i).map (fun tex => alignN tex.Data.length)).sum

/-- The mathematical total padded length of all texture payloads. -/
def alignedTotal (textures : List ParsedTexture) : Nat :=
  (textures.map (fun tex => alignN tex.Data.length)).sum

/-- `n`'s child indices (if `n` is internal) are below `len`. -/
def nodeChildrenLt (n : BvhNode) (len : Nat) : Prop :=
  ∀ l r, n = .node l r → l < len ∧ r < len

theorem nodeChildrenLt_mono {n : BvhNode} {len len' : Nat} (h : len ≤ len')
    (hn : nodeChildrenLt n len) : nodeChildrenLt n len' := by
  intro l r hlr
  obtain ⟨h1, h2⟩ := hn l r hlr
  exact ⟨lt_of_lt_of_le h1 h, lt_of_lt_of_le h2 h⟩

theorem leafRanges_cons_node (l r : Nat) (ns : List BvhNode) :
    leafRanges (BvhNode.node l r :: ns) = leafRanges ns := rfl

theorem leafRanges_append (a b : List BvhNode) :
    leafRanges (a ++ b) = leafRanges a ++ leafRanges b := List.filterMap_append a b _

theorem leafRanges_map_offset (ns : List BvhNode) (k : Nat) :
    leafRanges (ns.map (fun n => n.offsetChildNodes k)) = leafRanges ns := by
  unfold leafRanges
  rw [List.filterMap_map]
  congr 1
  funext n
  cases n <;> rfl

theorem rangesChainB_append {a b c : Nat} {xs ys : List (Nat × Nat)}
    (hx : rangesChainB a b xs = true) (hy : rangesChainB b c ys = true) :
    rangesChainB a c (xs ++ ys) = true := by
  induction xs generalizing a with
  | nil =>
      simp only [rangesChainB, beq_iff_eq] at hx
      simpa [hx] using hy
  | cons hd tl ih =>
      obtain ⟨o, cnt⟩ := hd
      simp only [rangesChainB, Bool.and_eq_true, beq_iff_eq] at hx ⊢
      exact ⟨hx.1, ih hx.2⟩

/-- Inverting one `buildBVHAux` step: either it emitted a leaf or it split
and recursed. -/
theorem buildAux_inv {V σ : Type} {T : Nat} {cb : σ → List V → Option (BvhNode × σ)}
    {fuel : Nat} {vols : List V} {s : σ} {ns : List BvhNode} {s1 : σ}
    (h : buildBVHAux T cb fuel vols s = some (ns, s1)) :
    (∃ n, cb s vols = some (n, s1) ∧ ns = [n]) ∨
    (∃ fuel' lns rns smid, fuel = fuel' + 1 ∧ ¬ vols.length ≤ T ∧
      buildBVHAux T cb fuel' (vols.take (vols.length / 2)) s = some (lns, smid) ∧
      buildBVHAux T cb fuel' (vols.drop (vols.length / 2)) smid = some (rns, s1) ∧
      ns = BvhNode.node 1 (1 + lns.length) ::
        (lns.map (fun n => n.offsetChildNodes 1) ++
          rns.map (fun n => n.offsetChildNodes (1 + lns.length)))) := by
  match fuel with
  | 0 =>
      left
      unfold buildBVHAux at h
      split at h
      · simp at h
      · next n s2 hcb =>
          simp only [Option.some.injEq, Prod.mk.injEq] at h
          obtain ⟨hns, hs⟩ := h
          subst hs
          exact ⟨n, hcb, hns.symm⟩
  | fuel' + 1 =>
      unfold buildBVHAux at h
      by_cases hlen : vols.length ≤ T
      · left
        rw [if_pos hlen] at h
        split at h
        · simp at h
        · next n s2 hcb =>
            simp only [Option.some.injEq, Prod.mk.injEq] at h
            obtain ⟨hns, hs⟩ := h
            subst hs
            exact ⟨n, hcb, hns.symm⟩
      · right
        rw [if_neg hlen] at h
        split at h
        · simp at h
        · next lns smid hl =>
            split at h
            · simp at h
            · next rns sr hr =>
                simp only [Option.some.injEq, Prod.mk.injEq] at h
                obtain ⟨hns, hs⟩ := h
                subst hs
                exact ⟨fuel', lns, rns, smid, rfl, hlen, hl, hr, hns.symm⟩

theorem buildAux_ne_nil {V σ : Type} {T : Nat} {cb : σ → List V → Option (BvhNode × σ)}
    {fuel : Nat} {vols : List V} {s : σ} {ns : List BvhNode} {s1 : σ}
    (h : buildBVHAux T cb fuel vols s = some (ns, s1)) : 0 < ns.length := by
  rcases buildAux_inv h with ⟨n, _, hns⟩ | ⟨_, _, _, _, _, _, _, _, hns⟩ <;> simp [hns]

/-- Every BVH array `buildBVHAux` produces has all internal child indices
in range, provided the callback only produces leaves. -/
theorem buildAux_children {V σ : Type} {T : Nat} {cb : σ → List V → Option (BvhNode × σ)}
    (hcb : ∀ s wl n s1, cb s wl = some (n, s1) → ∀ l r, n ≠ BvhNode.node l r) :
    ∀ (fuel : Nat) (vols : List V) (s : σ) (ns : List BvhNode) (s1 : σ),
      buildBVHAux T cb fuel vols s = some (ns, s1) →
      ∀ n ∈ ns, nodeChildrenLt n ns.length := by
  intro fuel
  induction fuel with
  | zero =>
      intro vols s ns s1 h n hn
      rcases buildAux_inv h with ⟨n0, hc, hns⟩ | ⟨_, _, _, _, hf, _⟩
      · subst hns
        simp only [List.mem_singleton] at hn
        subst hn
        intro l r hlr
        exact absurd hlr (hcb _ _ _ _ hc l r)
      · exact absurd hf (by omega)
  | succ fuel ih =>
      intro vols s ns s1 h n hn
      rcases buildAux_inv h with ⟨n0, hc, hns⟩ | ⟨fuel', lns, rns, smid, hf, _, hl, hr, hns⟩
      · subst hns
        simp only [List.mem_singleton] at hn
        subst hn
        intro l r hlr
        exact absurd hlr (hcb _ _ _ _ hc l r)
      · have hfuel : fuel' = fuel := by omega
        subst hfuel
        subst hns
        have hLpos : 0 < lns.length := buildAux_ne_nil hl
        have hRpos : 0 < rns.length := buildAux_ne_nil hr
        simp only [List.mem_cons, List.mem_append, List.mem_map] at hn
        rcases hn with hn | ⟨n0, hn0, hshift⟩ | ⟨n0, hn0, hshift⟩
        · subst hn
          intro l r hlr
          simp only [BvhNode.node.injEq] at hlr
          simp only [List.length_cons, List.length_append, List.length_map]
          omega
        · intro l r hlr
          subst hshift
          have hchild := ih _ _ _ _ hl n0 hn0
          cases n0 with
          | node l0 r0 =>
              simp only [BvhNode.offsetChildNodes, BvhNode.node.injEq] at hlr
              have := hchild l0 r0 rfl
              simp only [List.length_cons, List.length_append, List.length_map]
              omega
          | leafPrims o c => simp [BvhNode.offsetChildNodes] at hlr
          | leafInstance i => simp [BvhNode.offsetChildNodes] at hlr
        · intro l r hlr
          subst hshift
          have hchild := ih _ _ _ _ hr n0 hn0
          cases n0 with
          | node l0 r0 =>
              simp only [BvhNode.offsetChildNodes, BvhNode.node.injEq] at hlr
              have := hchild l0 r0 rfl
              simp only [List.length_cons, List.length_append, List.length_map]
              omega
          | leafPrims o c => simp [BvhNode.offsetChildNodes] at hlr
          | leafInstance i => simp [BvhNode.offsetChildNodes] at hlr

/-- If the callback never produces a primitive-range leaf (as with the
instance-level callback), the produced array has no recorded ranges. -/
theorem buildAux_leafRanges_nil {V σ : Type} {T : Nat} {cb : σ → List V → Option (BvhNode × σ)}
    (hcb : ∀ s wl n s1, cb s wl = some (n, s1) → leafRanges [n] = []) :
    ∀ (fuel : Nat) (vols : List V) (s : σ) (ns : List BvhNode) (s1 : σ),
      buildBVHAux T cb fuel vols s = some (ns, s1) → leafRanges ns = [] := by
  intro fuel
  induction fuel with
  | zero =>
      intro vols s ns s1 h
      rcases buildAux_inv h with ⟨n0, hc, hns⟩ | ⟨_, _, _, _, hf, _⟩
      · subst hns
        exact hcb _ _ _ _ hc
      · exact absurd hf (by omega)
  | succ fuel ih =>
      intro vols s ns s1 h
      rcases buildAux_inv h with ⟨n0, hc, hns⟩ | ⟨fuel', lns, rns, smid, hf, _, hl, hr, hns⟩
      · subst hns
        exact hcb _ _ _ _ hc
      · have hfuel : fuel' = fuel := by omega
        subst hfuel
        subst hns
        rw [leafRanges_cons_node, leafRanges_append, leafRanges_map_offset,
          leafRanges_map_offset, ih _ _ _ _ hl, ih _ _ _ _ hr]
        rfl

theorem primStep_primOffset (st : GeomState) (p : ParsedPrimitive) :
    (primStep st p).primOffset = (st.primOffset + 1) % U32MOD := rfl

theorem primStep_vertexOffset (st : GeomState) (p : ParsedPrimitive) :
    (primStep st p).vertexOffset = (st.vertexOffset + 3) % U32MOD := rfl

theorem foldl_primOffset (l : List ParsedPrimitive) :
    ∀ st : GeomState, st.primOffset < U32MOD →
      (l.foldl primStep st).primOffset = (st.primOffset + l.length) % U32MOD := by
  induction l with
  | nil =>
      intro st h
      simpa using (Nat.mod_eq_of_lt h).symm
  | cons p rest ih =>
      intro st h
      have hlt : (st.primOffset + 1) % U32MOD < U32MOD :=
        Nat.mod_lt _ (by unfold U32MOD; omega)
      rw [List.foldl_cons, ih (primStep st p) (by rw [primStep_primOffset]; exact hlt),
        primStep_primOffset, Nat.mod_add_mod, List.length_cons]
      congr 1
      omega

theorem foldl_vertexOffset (l : List ParsedPrimitive) :
    ∀ st : GeomState, st.vertexOffset < U32MOD →
      (l.foldl primStep st).vertexOffset = (st.vertexOffset + 3 * l.length) % U32MOD := by
  induction l with
  | nil =>
      intro st h
      simpa using (Nat.mod_eq_of_lt h).symm
  | cons p rest ih =>
      intro st h
      have hlt : (st.vertexOffset + 3) % U32MOD < U32MOD :=
        Nat.mod_lt _ (by unfold U32MOD; omega)
      rw [List.foldl_cons, ih (primStep st p) (by rw [primStep_vertexOffset]; exact hlt),
        primStep_vertexOffset, Nat.mod_add_mod, List.length_cons]
      congr 1
      omega

theorem foldl_primOffset_exact (l : List ParsedPrimitive) (st : GeomState)
    (h : st.primOffset + l.length < U32MOD) :
    (l.foldl primStep st).primOffset = st.primOffset + l.length := by
  rw [foldl_primOffset l st (by omega)]
  exact Nat.mod_eq_of_lt h

theorem foldl_vertexOffset_exact (l : List ParsedPrimitive) (st : GeomState)
    (h : st.vertexOffset + 3 * l.length < U32MOD) :
    (l.foldl primStep st).vertexOffset = st.vertexOffset + 3 * l.length := by
  rw [foldl_vertexOffset l st (by omega)]
  exact Nat.mod_eq_of_lt h

/-- A mesh-level build never fails and its final state is exactly the
effect of flattening all the volumes in input order: `buildBVHAux` only
partitions the work list, and the leaf callbacks fold `primStep` over the
pieces left to right. -/
theorem buildMesh_run {T : Nat} :
    ∀ (fuel : Nat) (vols : List ParsedPrimitive) (st : GeomState),
      ∃ ns, buildBVHAux T meshLeafCb fuel vols st = some (ns, vols.foldl primStep st) := by
  intro fuel
  induction fuel with
  | zero =>
      intro vols st
      exact ⟨_, rfl⟩
  | succ fuel ih =>
      intro vols st
      by_cases hlen : vols.length ≤ T
      · exact ⟨_, by unfold buildBVHAux; rw [if_pos hlen]; rfl⟩
      · obtain ⟨nsL, hL⟩ := ih (vols.take (vols.length / 2)) st
        obtain ⟨nsR, hR⟩ :=
          ih (vols.drop (vols.length / 2)) ((vols.take (vols.length / 2)).foldl primStep st)
        refine ⟨BvhNode.node 1 (1 + nsL.length) ::
          (nsL.map (fun n => n.offsetChildNodes 1) ++
            nsR.map (fun n => n.offsetChildNodes (1 + nsL.length))), ?_⟩
        unfold buildBVHAux
        rw [if_neg hlen, hL]
        dsimp only
        rw [hR]
        dsimp only
        rw [← List.foldl_append, List.take_append_drop]

/-- The ranges recorded by a mesh-level build chain exactly over the number
of volumes handed to it, starting at the incoming primitive cursor. -/
theorem buildMesh_chain {T : Nat} :
    ∀ (fuel : Nat) (vols : List ParsedPrimitive) (st : GeomState) (ns : List BvhNode)
      (st1 : GeomState),
      buildBVHAux T meshLeafCb fuel vols st = some (ns, st1) →
      st.primOffset + vols.length < U32MOD →
      rangesChainB st.primOffset (st.primOffset + vols.length) (leafRanges ns) = true := by
  intro fuel
  induction fuel with
  | zero =>
      intro vols st ns st1 h hb
      rcases buildAux_inv h with ⟨n0, hc, hns⟩ | ⟨_, _, _, _, hf, _⟩
      · subst hns
        unfold meshLeafCb at hc
        simp only [Option.some.injEq, Prod.mk.injEq] at hc
        rw [← hc.1]
        have hsmall : vols.length % U32MOD = vols.length := Nat.mod_eq_of_lt (by omega)
        simp [leafRanges, rangesChainB, hsmall]
      · exact absurd hf (by omega)
  | succ fuel ih =>
      intro vols st ns st1 h hb
      rcases buildAux_inv h with ⟨n0, hc, hns⟩ | ⟨fuel', lns, rns, smid, hf, hlen, hl, hr, hns⟩
      · subst hns
        unfold meshLeafCb at hc
        simp only [Option.some.injEq, Prod.mk.injEq] at hc
        rw [← hc.1]
        have hsmall : vols.length % U32MOD = vols.length := Nat.mod_eq_of_lt (by omega)
        simp [leafRanges, rangesChainB, hsmall]
      · have hfuel : fuel' = fuel := by omega
        subst hfuel
        subst hns
        rw [leafRanges_cons_node, leafRanges_append, leafRanges_map_offset,
          leafRanges_map_offset]
        set k := vols.length / 2 with hk
        have htl : (vols.take k).length = k := by
          rw [List.length_take]
          omega
        have hdl : (vols.drop k).length = vols.length - k := by
          rw [List.length_drop]
        -- the state entering the right half
        obtain ⟨nsL, hL⟩ := buildMesh_run (T := T) fuel' (vols.take k) st
        rw [hL] at hl
        simp only [Option.some.injEq, Prod.mk.injEq] at hl
        obtain ⟨hnsL, hsmid⟩ := hl
        subst hnsL
        have hmid : smid.primOffset = st.primOffset + k := by
          rw [← hsmid, foldl_primOffset_exact _ _ (by omega), htl]
        have hcl : rangesChainB st.primOffset (st.primOffset + k) (leafRanges nsL) = true := by
          have := ih (vols.take k) st nsL smid (by rw [hL, hsmid]) (by omega)
          rwa [htl] at this
        have hcr : rangesChainB (st.primOffset + k) (st.primOffset + vols.length)
            (leafRanges rns) = true := by
          have := ih (vols.drop k) smid rns st1 hr (by rw [hmid, hdl]; omega)
          rw [hmid, hdl] at this
          have harith : st.primOffset + k + (vols.length - k) = st.primOffset + vols.length := by
            have : k ≤ vols.length := Nat.div_le_self _ _
            omega
          rwa [harith] at this
        exact rangesChainB_append hcl hcr

/-- Flattened primitives of a mesh list. -/
def flattenPrims (ms : List ParsedMesh) : List ParsedPrimitive :=
  (ms.map (fun pm => pm.Primitives)).flatten

theorem flattenPrims_cons (pm : ParsedMesh) (rest : List ParsedMesh) :
    flattenPrims (pm :: rest) = pm.Primitives ++ flattenPrims rest := by
  unfold flattenPrims
  rw [List.map_cons, List.flatten_cons]

/-- The per-mesh merge loop never fails; its final geometry state is the
fold of `primStep` over all primitives, its node list only grows, and it
appends one root per mesh. -/
theorem meshLoop_run :
    ∀ (ms : List ParsedMesh) (gs : GeomState) (nodes : List BvhNode) (roots : List Nat),
      ∃ N R tail,
        meshLoop gs nodes roots ms = some ((flattenPrims ms).foldl primStep gs, N, R) ∧
        R.length = roots.length + ms.length ∧ N = nodes ++ tail := by
  intro ms
  induction ms with
  | nil =>
      intro gs nodes roots
      exact ⟨nodes, roots, [], rfl, by simp, by simp⟩
  | cons pm rest ih =>
      intro gs nodes roots
      obtain ⟨nsM, hM⟩ := buildMesh_run (T := minPrimitivesPerLeaf)
        pm.Primitives.length pm.Primitives gs
      obtain ⟨N, R, tail, hloop, hR, hN⟩ :=
        ih (pm.Primitives.foldl primStep gs)
          (nodes ++ nsM.map (fun n => n.offsetChildNodes nodes.length))
          (roots ++ [nodes.length])
      refine ⟨N, R, nsM.map (fun n => n.offsetChildNodes nodes.length) ++ tail, ?_, ?_, ?_⟩
      · unfold meshLoop BuildBVH
        rw [hM]
        dsimp only
        rw [hloop, flattenPrims_cons, List.foldl_append]
      · rw [hR]
        simp
        omega
      · rw [hN, List.append_assoc]

theorem meshLeafCb_no_node :
    ∀ (st : GeomState) (wl : List ParsedPrimitive) (n : BvhNode) (st1 : GeomState),
      meshLeafCb st wl = some (n, st1) → ∀ l r, n ≠ BvhNode.node l r := by
  intro st wl n st1 h l r
  unfold meshLeafCb at h
  simp only [Option.some.injEq, Prod.mk.injEq] at h
  rw [← h.1]
  simp

theorem instLeafCb_no_node :
    ∀ (u : Unit) (wl : List Nat) (n : BvhNode) (u1 : Unit),
      instLeafCb u wl = some (n, u1) → ∀ l r, n ≠ BvhNode.node l r := by
  intro u wl n u1 h l r
  cases wl with
  | nil => simp [instLeafCb] at h
  | cons i rest =>
      simp only [instLeafCb, Option.some.injEq, Prod.mk.injEq] at h
      rw [← h.1]
      simp

theorem instLeafCb_no_primleaf :
    ∀ (u : Unit) (wl : List Nat) (n : BvhNode) (u1 : Unit),
      instLeafCb u wl = some (n, u1) → leafRanges [n] = [] := by
  intro u wl n u1 h
  cases wl with
  | nil => simp [instLeafCb] at h
  | cons i rest =>
      simp only [instLeafCb, Option.some.injEq, Prod.mk.injEq] at h
      rw [← h.1]
      rfl

/-- Merging preserves and extends the child-index invariant: if the global
list satisfies it before the merge loop, the final merged list satisfies
it. -/
theorem meshLoop_children :
    ∀ (ms : List ParsedMesh) (gs : GeomState) (nodes : List BvhNode) (roots : List Nat)
      (out : GeomState × List BvhNode × List Nat),
      meshLoop gs nodes roots ms = some out →
      (∀ n ∈ nodes, nodeChildrenLt n nodes.length) →
      ∀ n ∈ out.2.1, nodeChildrenLt n out.2.1.length := by
  intro ms
  induction ms with
  | nil =>
      intro gs nodes roots out h hinv
      unfold meshLoop at h
      simp only [Option.some.injEq] at h
      rw [← h]
      exact hinv
  | cons pm rest ih =>
      intro gs nodes roots out h hinv
      unfold meshLoop at h
      split at h
      · simp at h
      · next bvhNodes gs1 hbuild =>
          refine ih _ _ _ _ h ?_
          intro n hn
          rw [List.length_append, List.length_map]
          rcases List.mem_append.mp hn with hn | hn
          · exact nodeChildrenLt_mono (by omega) (hinv n hn)
          · obtain ⟨n0, hn0, hshift⟩ := List.mem_map.mp hn
            have hchild := buildAux_children meshLeafCb_no_node _ _ _ _ _ hbuild n0 hn0
            intro l r hlr
            subst hshift
            cases n0 with
            | node l0 r0 =>
                simp only [BvhNode.offsetChildNodes, BvhNode.node.injEq] at hlr
                have := hchild l0 r0 rfl
                omega
            | leafPrims o c => simp [BvhNode.offsetChildNodes] at hlr
            | leafInstance i => simp [BvhNode.offsetChildNodes] at hlr

/-- Merging accumulates the recorded leaf ranges into one contiguous
chain. -/
theorem meshLoop_chain :
    ∀ (ms : List ParsedMesh) (gs : GeomState) (nodes : List BvhNode) (roots : List Nat)
      (out : GeomState × List BvhNode × List Nat),
      meshLoop gs nodes roots ms = some out →
      gs.primOffset + (flattenPrims ms).length < U32MOD →
      rangesChainB 0 gs.primOffset (leafRanges nodes) = true →
      rangesChainB 0 (gs.primOffset + (flattenPrims ms).length) (leafRanges out.2.1) = true := by
  intro ms
  induction ms with
  | nil =>
      intro gs nodes roots out h hb hchain
      unfold meshLoop at h
      simp only [Option.some.injEq] at h
      rw [← h]
      simpa [flattenPrims] using hchain
  | cons pm rest ih =>
      intro gs nodes roots out h hb hchain
      rw [flattenPrims_cons, List.length_append] at hb ⊢
      unfold meshLoop at h
      split at h
      · simp at h
      · next bvhNodes gs1 hbuild =>
          obtain ⟨nsM, hM⟩ := buildMesh_run (T := minPrimitivesPerLeaf)
            pm.Primitives.length pm.Primitives gs
          unfold BuildBVH at hbuild
          rw [hM] at hbuild
          simp only [Option.some.injEq, Prod.mk.injEq] at hbuild
          obtain ⟨hns, hgs1⟩ := hbuild
          subst hns
          have hgs1p : gs1.primOffset = gs.primOffset + pm.Primitives.length := by
            rw [← hgs1, foldl_primOffset_exact _ _ (by omega)]
          have hsub : rangesChainB gs.primOffset (gs.primOffset + pm.Primitives.length)
              (leafRanges nsM) = true :=
            buildMesh_chain _ _ _ _ _ hM (by omega)
          have hnewchain : rangesChainB 0 (gs.primOffset + pm.Primitives.length)
              (leafRanges (nodes ++ nsM.map (fun n => n.offsetChildNodes nodes.length)))
              = true := by
            rw [leafRanges_append, leafRanges_map_offset]
            exact rangesChainB_append hchain hsub
          have := ih gs1 _ _ _ h (by omega) (by rw [hgs1p]; exact hnewchain)
          rw [hgs1p] at this
          have harith : gs.primOffset + pm.Primitives.length + (flattenPrims rest).length =
              gs.primOffset + (pm.Primitives.length + (flattenPrims rest).length) := by omega
          rwa [harith] at this

/-- With at least one volume, the instance-level build never panics. -/
theorem instBuild_some :
    ∀ (fuel : Nat) (vols : List Nat), vols ≠ [] →
      ∃ ns, buildBVHAux 1 instLeafCb fuel vols () = some (ns, ()) := by
  intro fuel
  induction fuel with
  | zero =>
      intro vols hne
      cases vols with
      | nil => exact absurd rfl hne
      | cons i rest => exact ⟨_, rfl⟩
  | succ fuel ih =>
      intro vols hne
      by_cases hlen : vols.length ≤ 1
      · cases vols with
        | nil => exact absurd rfl hne
        | cons i rest =>
            exact ⟨_, by unfold buildBVHAux; rw [if_pos hlen]; rfl⟩
      · have hlen2 : 2 ≤ vols.length := by omega
        have htne : vols.take (vols.length / 2) ≠ [] := by
          have : (vols.take (vols.length / 2)).length = vols.length / 2 := by
            rw [List.length_take]
            omega
          intro hcontra
          rw [hcontra] at this
          simp at this
          omega
        have hdne : vols.drop (vols.length / 2) ≠ [] := by
          have : (vols.drop (vols.length / 2)).length = vols.length - vols.length / 2 := by
            rw [List.length_drop]
          intro hcontra
          rw [hcontra] at this
          simp at this
          omega
        obtain ⟨nsL, hL⟩ := ih (vols.take (vols.length / 2)) htne
        obtain ⟨nsR, hR⟩ := ih (vols.drop (vols.length / 2)) hdne
        refine ⟨BvhNode.node 1 (1 + nsL.length) ::
          (nsL.map (fun n => n.offsetChildNodes 1) ++
            nsR.map (fun n => n.offsetChildNodes (1 + nsL.length))), ?_⟩
        unfold buildBVHAux
        rw [if_neg hlen, hL]
        dsimp only
        rw [hR]

/-- Resolving the instances succeeds precisely it gives each parsed
instance its mesh's recorded root and the inverse of its transform. -/
theorem instanceLoop_get :
    ∀ (l : List ParsedMeshInstance) (roots : List Nat) (out : List MeshInstance),
      instanceLoop roots l = some out →
      out.length = l.length ∧
      ∀ (i : Nat) (pmi : ParsedMeshInstance), l[i]? = some pmi →
        ∃ root, roots[pmi.MeshIndex]? = some root ∧
          out[i]? = some { MeshIndex := pmi.MeshIndex, BvhRoot := root,
                           Transform := Mat4inv pmi.Transform } := by
  intro l
  induction l with
  | nil =>
      intro roots out h
      simp only [instanceLoop, Option.some.injEq] at h
      subst h
      refine ⟨rfl, ?_⟩
      intro i pmi hget
      cases i <;> simp at hget
  | cons pmi0 rest ih =>
      intro roots out h
      unfold instanceLoop at h
      split at h
      · simp at h
      · next root hroot =>
          split at h
          · simp at h
          · next others hothers =>
              simp only [Option.some.injEq] at h
              subst h
              obtain ⟨hlen, hrest⟩ := ih roots others hothers
              refine ⟨by simp [hlen], ?_⟩
              intro i pmi hget
              cases i with
              | zero =>
                  simp only [List.getElem?_cons_zero, Option.some.injEq] at hget
                  subst hget
                  exact ⟨root, hroot, by simp⟩
              | succ i =>
                  simp only [List.getElem?_cons_succ] at hget ⊢
                  exact hrest i pmi hget

/-- A dangling mesh index makes the instance-resolution loop panic. -/
theorem instanceLoop_none :
    ∀ (l : List ParsedMeshInstance) (roots : List Nat) (i : Nat) (pmi : ParsedMeshInstance),
      l[i]? = some pmi → roots.length ≤ pmi.MeshIndex → instanceLoop roots l = none := by
  intro l
  induction l with
  | nil =>
      intro roots i pmi hget
      cases i <;> simp at hget
  | cons pmi0 rest ih =>
      intro roots i pmi hget hbad
      unfold instanceLoop
      cases i with
      | zero =>
          simp only [List.getElem?_cons_zero, Option.some.injEq] at hget
          subst hget
          rw [List.getElem?_eq_none hbad]
      | succ i =>
          simp only [List.getElem?_cons_succ] at hget
          rw [ih roots i pmi hget hbad]
          cases hropt : roots[pmi0.MeshIndex]? with
          | none => rfl
          | some root => rfl

/-- Inversion of `partitionGeometry`: a successful run exposes the
instance-level build, the merge loop and the instance resolution. -/
theorem partitionGeometry_inv {ps : ParsedScene} {g : GeomOut}
    (h : partitionGeometry ps = some g) :
    ∃ instNodes gs nodes roots instances,
      BuildBVH (List.range ps.MeshInstances.length) 1 instLeafCb () = some (instNodes, ()) ∧
      meshLoop (initGeomState (totalVerticesOf ps.Meshes)) instNodes [] ps.Meshes =
        some (gs, nodes, roots) ∧
      instanceLoop roots ps.MeshInstances = some instances ∧
      g.BvhNodeList = nodes ∧ g.VertexList = gs.VertexList ∧ g.NormalList = gs.NormalList ∧
      g.UvList = gs.UvList ∧ g.MaterialIndex = gs.MaterialIndex ∧
      g.MeshInstanceList = instances ∧ g.meshBvhRoots = roots := by
  unfold partitionGeometry at h
  cases hinst : BuildBVH (List.range ps.MeshInstances.length) 1 instLeafCb () with
  | none => rw [hinst] at h; simp at h
  | some p =>
      obtain ⟨instNodes, u⟩ := p
      cases u
      rw [hinst] at h
      dsimp only at h
      cases hloop : meshLoop (initGeomState (totalVerticesOf ps.Meshes)) instNodes [] ps.Meshes with
      | none => rw [hloop] at h; simp at h
      | some trip =>
          obtain ⟨gs, nodes, roots⟩ := trip
          rw [hloop] at h
          dsimp only at h
          cases hresolve : instanceLoop roots ps.MeshInstances with
          | none => rw [hresolve] at h; simp at h
          | some instances =>
              rw [hresolve] at h
              dsimp only at h
              simp only [Option.some.injEq] at h
              subst h
              exact ⟨instNodes, gs, nodes, roots, instances, rfl, hloop, hresolve,
                rfl, rfl, rfl, rfl, rfl, rfl, rfl⟩

/-- `Compile` succeeds exactly when `partitionGeometry` does, assembling
its outputs together with the texture and camera stages. -/
theorem Compile_eq_ok {ps : ParsedScene} {g : GeomOut}
    (h : partitionGeometry ps = some g) :
    Compile ps = .ok { TextureData := (bakeTextures ps).1
                       TextureMetadata := (bakeTextures ps).2
                       BvhNodeList := g.BvhNodeList
                       VertexList := g.VertexList
                       NormalList := g.NormalList
                       UvList := g.UvList
                       MaterialIndex := g.MaterialIndex
                       MeshInstanceList := g.MeshInstanceList
                       Camera := setupCamera ps } := by
  unfold Compile bakeTexturesStage partitionGeometryStage setupCameraStage
  rw [h]

/-- `Compile` panics exactly when `partitionGeometry` does. -/
theorem Compile_eq_panic {ps : ParsedScene} (h : partitionGeometry ps = none) :
    Compile ps = .panicked := by
  unfold Compile bakeTexturesStage partitionGeometryStage setupCameraStage
  rw [h]

theorem compiledOkB_some {ps : ParsedScene} (h : compiledOkB ps = true) :
    ∃ g, partitionGeometry ps = some g := by
  cases hg : partitionGeometry ps with
  | none =>
      unfold compiledOkB at h
      rw [Compile_eq_panic hg] at h
      simp [GoResult.isOk] at h
  | some g => exact ⟨g, rfl⟩

theorem compiledNodes_eq {ps : ParsedScene} {g : GeomOut}
    (h : partitionGeometry ps = some g) : compiledNodes ps = g.BvhNodeList := by
  unfold compiledNodes
  rw [Compile_eq_ok h]

theorem compiledVertexList_eq {ps : ParsedScene} {g : GeomOut}
    (h : partitionGeometry ps = some g) : compiledVertexList ps = g.VertexList := by
  unfold compiledVertexList
  rw [Compile_eq_ok h]

theorem compiledNormalList_eq {ps : ParsedScene} {g : GeomOut}
    (h : partitionGeometry ps = some g) : compiledNormalList ps = g.NormalList := by
  unfold compiledNormalList
  rw [Compile_eq_ok h]

theorem compiledUvList_eq {ps : ParsedScene} {g : GeomOut}
    (h : partitionGeometry ps = some g) : compiledUvList ps = g.UvList := by
  unfold compiledUvList
  rw [Compile_eq_ok h]

theorem compiledMaterialIndex_eq {ps : ParsedScene} {g : GeomOut}
    (h : partitionGeometry ps = some g) : compiledMaterialIndex ps = g.MaterialIndex := by
  unfold compiledMaterialIndex
  rw [Compile_eq_ok h]

theorem compiledInstances_eq {ps : ParsedScene} {g : GeomOut}
    (h : partitionGeometry ps = some g) : compiledInstances ps = g.MeshInstanceList := by
  unfold compiledInstances
  rw [Compile_eq_ok h]

theorem geomRoots_eq {ps : ParsedScene} {g : GeomOut}
    (h : partitionGeometry ps = some g) : geomRoots ps = g.meshBvhRoots := by
  unfold geomRoots
  rw [h]

theorem childrenOkB_of {nodes : List BvhNode}
    (h : ∀ n ∈ nodes, nodeChildrenLt n nodes.length) : childrenOkB nodes = true := by
  unfold childrenOkB
  rw [List.all_eq_true]
  intro n hn
  cases hnode : n with
  | node l r =>
      have := h n hn l r hnode
      simp [this.1, this.2]
  | leafPrims o c => rfl
  | leafInstance i => rfl

theorem flattenPrims_length (ms : List ParsedMesh) :
    (flattenPrims ms).length = (ms.map (fun pm => pm.Primitives.length)).sum := by
  unfold flattenPrims
  rw [List.length_flatten, List.map_map]
  rfl

theorem totalVerticesOf_eq (ms : List ParsedMesh) :
    totalVerticesOf ms = 3 * (ms.map (fun pm => pm.Primitives.length)).sum := by
  suffices h : ∀ a, ms.foldl (fun acc pm => acc + 3 * pm.Primitives.length) a =
      a + 3 * (ms.map (fun pm => pm.Primitives.length)).sum by
    simpa [totalVerticesOf] using h 0
  induction ms with
  | nil => intro a; simp
  | cons pm rest ih =>
      intro a
      rw [List.foldl_cons, ih]
      simp [Nat.mul_add]
      omega

/-- A shared concrete scene: three textures with payload lengths 3, 5 and
8, two meshes holding 2 and 3 triangles, and three instances with identity
transforms. -/
def exPrim0 : ParsedPrimitive :=
  { Vertices := (⟨1, 0, 0⟩, ⟨0, 1, 0⟩, ⟨0, 0, 1⟩)
    Normals := (⟨1, 1, 0⟩, ⟨0, 1, 1⟩, ⟨1, 0, 1⟩)
    UVs := ((2, 3), (4, 5), (1, 1))
    MaterialIndex := 7 }

def exPrim1 : ParsedPrimitive :=
  { Vertices := (⟨2, 0, 0⟩, ⟨0, 2, 0⟩, ⟨0, 0, 2⟩)
    Normals := (⟨2, 1, 0⟩, ⟨0, 2, 1⟩, ⟨2, 0, 1⟩)
    UVs := ((5, 6), (7, 8), (9, 10))
    MaterialIndex := 3 }

def exScene2 : ParsedScene :=
  { Textures := [⟨1, 2, 2, [10, 11, 12]⟩, ⟨2, 1, 1, [20, 21, 22, 23, 24]⟩,
                 ⟨3, 4, 4, [30, 31, 32, 33, 34, 35, 36, 37]⟩]
    Meshes := [⟨[exPrim0, exPrim1]⟩, ⟨[exPrim1, exPrim0, exPrim1]⟩]
    MeshInstances := [⟨0, 1⟩, ⟨1, 1⟩, ⟨0, 1⟩]
    Camera := ⟨45, ⟨0, 0, 5⟩, ⟨0, 0, 0⟩, ⟨0, 1, 0⟩⟩ }

/-- A scene whose only instance refers to mesh 5, which does not exist. -/
def exDangling : ParsedScene :=
  { Textures := []
    Meshes := [⟨[exPrim0]⟩]
    MeshInstances := [⟨5, 1⟩]
    Camera := ⟨45, ⟨0, 0, 5⟩, ⟨0, 0, 0⟩, ⟨0, 1, 0⟩⟩ }

/-- Claim C1: in every compiled scene every internal node of the final
merged `BvhNodeList` has both child indices strictly below the list's
length.  The rebasing-before-append discipline the claim describes is the
`meshLoop` definition itself: each mesh's fresh node array is rebased by
the pre-append global length exactly once, in the same step that appends
it. -/
theorem claim_C1 (ps : ParsedScene) (h : compiledOkB ps = true) :
    childrenOkB (compiledNodes ps) = true := by
  obtain ⟨g, hg⟩ := compiledOkB_some h
  obtain ⟨instNodes, gs, nodes, roots, instances, hinst, hloop, hresolve, hBvh, -⟩ :=
    partitionGeometry_inv hg
  rw [compiledNodes_eq hg, hBvh]
  apply childrenOkB_of
  apply meshLoop_children _ _ _ _ _ hloop
  exact buildAux_children instLeafCb_no_node _ _ _ _ _ hinst

theorem claim_C1_witness :
    compiledOkB exScene2 = true ∧ childrenOkB (compiledNodes exScene2) = true :=
  ⟨by decide, claim_C1 exScene2 (by decide)⟩

/-- Claim C2: across every compiled scene, the primitive ranges recorded on
the mesh-level leaves — in node-list order, which is the order in which the
leaf callbacks ran — tile `[0, total_primitive_count)` with no overlap and
no gap, ending exactly at the total count.  The top-level instance tree
contributes no ranges.  The size hypothesis keeps the `uint32` primitive
cursor below `2^32`, where Go's arithmetic matches the untruncated count. -/
theorem claim_C2 (ps : ParsedScene) (h : compiledOkB ps = true)
    (hsize : totalPrims ps < U32MOD) :
    rangesChainB 0 (totalPrims ps) (leafRanges (compiledNodes ps)) = true := by
  obtain ⟨g, hg⟩ := compiledOkB_some h
  obtain ⟨instNodes, gs, nodes, roots, instances, hinst, hloop, hresolve, hBvh, -⟩ :=
    partitionGeometry_inv hg
  rw [compiledNodes_eq hg, hBvh]
  have hinit : (initGeomState (totalVerticesOf ps.Meshes)).primOffset = 0 := rfl
  have hinstnil : leafRanges instNodes = [] :=
    buildAux_leafRanges_nil instLeafCb_no_primleaf _ _ _ _ _ hinst
  have hlen : (flattenPrims ps.Meshes).length = totalPrims ps := flattenPrims_length _
  have hchain0 : rangesChainB 0 (initGeomState (totalVerticesOf ps.Meshes)).primOffset
      (leafRanges instNodes) = true := by
    rw [hinit, hinstnil]
    rfl
  have := meshLoop_chain _ _ _ _ _ hloop (by rw [hinit, hlen]; simpa using hsize) hchain0
  rw [hinit, hlen] at this
  simpa using this

theorem claim_C2_witness :
    (compiledOkB exScene2 = true ∧ totalPrims exScene2 < U32MOD) ∧
      rangesChainB 0 (totalPrims exScene2) (leafRanges (compiledNodes exScene2)) = true :=
  ⟨⟨by decide, by decide⟩, claim_C2 exScene2 (by decide) (by decide)⟩

theorem rootPosition_succ (ps : ParsedScene) (m : Nat) :
    rootPosition ps (m + 1) = rootPosition ps m + (meshLocalNodes ps m).length := by
  unfold rootPosition
  rw [List.range_succ, List.map_append, List.sum_append]
  simp [Nat.add_assoc]

theorem stateBeforeMesh_zero (ps : ParsedScene) :
    stateBeforeMesh ps 0 = initGeomState (totalVerticesOf ps.Meshes) := rfl

theorem stateBeforeMesh_succ (ps : ParsedScene) (m : Nat) (pm : ParsedMesh)
    (hm : ps.Meshes[m]? = some pm) :
    stateBeforeMesh ps (m + 1) = pm.Primitives.foldl primStep (stateBeforeMesh ps m) := by
  unfold stateBeforeMesh
  rw [List.take_succ, hm, List.map_append, List.flatten_append, List.foldl_append]
  simp

theorem meshLocalNodes_eq (ps : ParsedScene) (m : Nat) (pm : ParsedMesh)
    (hm : ps.Meshes[m]? = some pm) {ns : List BvhNode} {st1 : GeomState}
    (hb : BuildBVH pm.Primitives minPrimitivesPerLeaf meshLeafCb (stateBeforeMesh ps m)
      = some (ns, st1)) :
    meshLocalNodes ps m = ns := by
  unfold meshLocalNodes
  rw [hm]
  dsimp only
  rw [hb]

/-- The merge loop records, for every mesh it processes, the global
position at which that mesh's local root node lands, and the node stored
there is the local root rebased by exactly that position. -/
theorem meshLoop_c3 (ps : ParsedScene) :
    ∀ (ms : List ParsedMesh) (m0 : Nat) (nodes : List BvhNode) (roots : List Nat)
      (out : GeomState × List BvhNode × List Nat),
      ms = ps.Meshes.drop m0 →
      nodes.length = rootPosition ps m0 →
      roots.length = m0 →
      meshLoop (stateBeforeMesh ps m0) nodes roots ms = some out →
      (∀ j, j < m0 → out.2.2[j]? = roots[j]?) ∧
      (∀ j, j < ms.length →
        out.2.2[m0 + j]? = some (rootPosition ps (m0 + j)) ∧
        out.2.1[rootPosition ps (m0 + j)]? =
          ((meshLocalNodes ps (m0 + j)).map
            (fun n => n.offsetChildNodes (rootPosition ps (m0 + j))))[0]?) := by
  intro ms
  induction ms with
  | nil =>
      intro m0 nodes roots out hms hnlen hrlen h
      unfold meshLoop at h
      simp only [Option.some.injEq] at h
      subst h
      exact ⟨fun j _ => rfl, fun j hj => absurd hj (by simp)⟩
  | cons pm rest ih =>
      intro m0 nodes roots out hms hnlen hrlen h
      have hm : ps.Meshes[m0]? = some pm := by
        have h0 : (ps.Meshes.drop m0)[0]? = some pm := by rw [← hms]; simp
        rwa [List.getElem?_drop] at h0
      have hrest : rest = ps.Meshes.drop (m0 + 1) := by
        have : (ps.Meshes.drop m0).drop 1 = ps.Meshes.drop (m0 + 1) := by
          rw [List.drop_drop]
        rw [← this, ← hms]
        simp
      obtain ⟨nsM, hM⟩ := buildMesh_run (T := minPrimitivesPerLeaf)
        pm.Primitives.length pm.Primitives (stateBeforeMesh ps m0)
      have hBV : BuildBVH pm.Primitives minPrimitivesPerLeaf meshLeafCb (stateBeforeMesh ps m0) =
          some (nsM, pm.Primitives.foldl primStep (stateBeforeMesh ps m0)) := hM
      have hMnodes : meshLocalNodes ps m0 = nsM := meshLocalNodes_eq ps m0 pm hm hBV
      have hstep : pm.Primitives.foldl primStep (stateBeforeMesh ps m0) =
          stateBeforeMesh ps (m0 + 1) := (stateBeforeMesh_succ ps m0 pm hm).symm
      unfold meshLoop at h
      rw [hBV] at h
      dsimp only at h
      rw [hstep] at h
      have hnlen' : (nodes ++ nsM.map (fun n => n.offsetChildNodes nodes.length)).length =
          rootPosition ps (m0 + 1) := by
        rw [List.length_append, List.length_map, rootPosition_succ, hMnodes, hnlen]
      have hrlen' : (roots ++ [nodes.length]).length = m0 + 1 := by
        rw [List.length_append, hrlen]
        rfl
      obtain ⟨IH1, IH2⟩ := ih (m0 + 1) _ _ out hrest hnlen' hrlen' h
      -- the final node list extends the accumulator
      obtain ⟨N, R, tail, hrun, hRlen, hNapp⟩ :=
        meshLoop_run rest (stateBeforeMesh ps (m0 + 1))
          (nodes ++ nsM.map (fun n => n.offsetChildNodes nodes.length))
          (roots ++ [nodes.length])
      rw [hrun] at h
      simp only [Option.some.injEq] at h
      have hout1 : out.2.1 = N := by rw [← h]
      have hMpos : 0 < nsM.length := buildAux_ne_nil (hM : buildBVHAux _ _ _ _ _ = _)
      refine ⟨?_, ?_⟩
      · intro j hj
        have := IH1 j (by omega)
        rw [this, List.getElem?_append_left (by omega)]
      · intro j hj
        cases j with
        | zero =>
            have hcl := List.getElem?_concat_length roots nodes.length
            rw [hrlen] at hcl
            constructor
            · have hIH := IH1 m0 (by omega)
              rw [Nat.add_zero, hIH, hcl, hnlen]
            · rw [Nat.add_zero, hout1, hNapp, hMnodes, ← hnlen]
              rw [List.getElem?_append_left (by
                rw [List.length_append, List.length_map]
                omega)]
              rw [List.getElem?_append_right (by omega)]
              simp
        | succ j' =>
            have harith : m0 + (j' + 1) = (m0 + 1) + j' := by omega
            rw [harith]
            exact IH2 j' (by simp at hj; omega)

/-- Claim C3: the root index recorded for a mesh (stored in
`meshBvhRoots` and copied into the `BvhRoot` field of every instance
referencing the mesh) is the mesh root's position inside the final merged
`BvhNodeList` — after the instance-level tree and all earlier meshes'
arrays — not its position (zero) inside the mesh's own temporary array, and
the node found there is the mesh's own root node rebased by that very
position. -/
theorem claim_C3 (ps : ParsedScene) (i : Nat) (pmi : ParsedMeshInstance)
    (h : compiledOkB ps = true) (hget : ps.MeshInstances[i]? = some pmi) :
    (geomRoots ps)[pmi.MeshIndex]? = some (rootPosition ps pmi.MeshIndex) ∧
    ((compiledInstances ps)[i]?).map (fun inst => inst.BvhRoot) =
      some (rootPosition ps pmi.MeshIndex) ∧
    (compiledNodes ps)[rootPosition ps pmi.MeshIndex]? =
      ((meshLocalNodes ps pmi.MeshIndex).map
        (fun n => n.offsetChildNodes (rootPosition ps pmi.MeshIndex)))[0]? := by
  obtain ⟨g, hg⟩ := compiledOkB_some h
  obtain ⟨instNodes, gs, nodes, roots, instances, hinst, hloop, hresolve, hBvh, -, -, -, -,
    hInstL, hRoots⟩ := partitionGeometry_inv hg
  -- the loop's roots list has one entry per mesh
  obtain ⟨N, R, tail, hrun, hRlen, -⟩ :=
    meshLoop_run ps.Meshes (initGeomState (totalVerticesOf ps.Meshes)) instNodes []
  rw [hrun] at hloop
  simp only [Option.some.injEq, Prod.mk.injEq] at hloop
  obtain ⟨-, hN, hR⟩ := hloop
  subst hN
  subst hR
  have hRmesh : R.length = ps.Meshes.length := by
    rw [hRlen]
    simp
  -- resolve the instance
  obtain ⟨hlen, hres⟩ := instanceLoop_get _ _ _ hresolve
  obtain ⟨root, hroot, hentry⟩ := hres i pmi hget
  have hmi : pmi.MeshIndex < ps.Meshes.length := by
    have hx := hroot
    rw [List.getElem?_eq_some] at hx
    obtain ⟨hlt, -⟩ := hx
    omega
  -- instNodes is instNodesOf ps
  have hInstEq : instNodesOf ps = instNodes := by
    unfold instNodesOf
    rw [hinst]
  -- run the positional lemma over the whole mesh list
  have hstate0 : meshLoop (stateBeforeMesh ps 0) instNodes [] ps.Meshes =
      some ((flattenPrims ps.Meshes).foldl primStep
        (initGeomState (totalVerticesOf ps.Meshes)), N, R) := by
    rw [stateBeforeMesh_zero]
    exact hrun
  have hpos0 : instNodes.length = rootPosition ps 0 := by
    unfold rootPosition
    rw [hInstEq]
    simp
  obtain ⟨-, hC3⟩ := meshLoop_c3 ps ps.Meshes 0 instNodes []
    ((flattenPrims ps.Meshes).foldl primStep
        (initGeomState (totalVerticesOf ps.Meshes)), N, R)
    (List.drop_zero ps.Meshes).symm hpos0 rfl hstate0
  obtain ⟨hrootpos, hnodepos⟩ := hC3 pmi.MeshIndex hmi
  simp only [Nat.zero_add] at hrootpos hnodepos
  have hrootval : root = rootPosition ps pmi.MeshIndex := by
    have hx := hroot
    rw [hrootpos] at hx
    exact (Option.some.inj hx).symm
  refine ⟨?_, ?_, ?_⟩
  · rw [geomRoots_eq hg, hRoots]
    exact hrootpos
  · rw [compiledInstances_eq hg, hInstL, hentry]
    simp [hrootval]
  · rw [compiledNodes_eq hg, hBvh]
    exact hnodepos

theorem claim_C3_witness :
    (compiledOkB exScene2 = true ∧ exScene2.MeshInstances[1]? = some (⟨1, 1⟩ : ParsedMeshInstance)) ∧
      ((geomRoots exScene2)[(1 : Nat)]? = some (rootPosition exScene2 1) ∧
        ((compiledInstances exScene2)[1]?).map (fun inst => inst.BvhRoot) =
          some (rootPosition exScene2 1) ∧
        (compiledNodes exScene2)[rootPosition exScene2 1]? =
          ((meshLocalNodes exScene2 1).map
            (fun n => n.offsetChildNodes (rootPosition exScene2 1)))[0]?) :=
  ⟨⟨by decide, rfl⟩, claim_C3 exScene2 1 ⟨1, 1⟩ (by decide) rfl⟩

/-- Claim C4, counterexample to the claim as stated: on a scene whose only
instance references nonexistent mesh 5, `Compile` does not fail with a
returned compile error — it aborts with a runtime panic (`meshBvhRoots`
indexed out of range), returning neither an error value nor a scene. -/
theorem claim_C4_counterexample :
    (Compile exDangling).isErr = false ∧ (Compile exDangling).isOk = false ∧
      (Compile exDangling).isPanic = true := by
  refine ⟨?_, ?_, ?_⟩ <;> decide

/-- Claim C4 (amended): if some mesh instance's `MeshIndex` does not refer
to an existing mesh, the whole pipeline aborts — via an out-of-range panic
in `partitionGeometry`, not a returned error — and no partial output scene
reaches the caller. -/
theorem claim_C4_amended (ps : ParsedScene) (i : Nat) (pmi : ParsedMeshInstance)
    (hget : ps.MeshInstances[i]? = some pmi)
    (hbad : ps.Meshes.length ≤ pmi.MeshIndex) : Compile ps = .panicked := by
  have hne : ps.MeshInstances.length ≠ 0 := by
    intro hc
    rw [List.length_eq_zero] at hc
    rw [hc] at hget
    cases i <;> simp at hget
  have hrange : List.range ps.MeshInstances.length ≠ [] := by
    rw [ne_eq, List.range_eq_nil]
    exact hne
  obtain ⟨insN, hinst⟩ := instBuild_some (List.range ps.MeshInstances.length).length
    (List.range ps.MeshInstances.length) hrange
  have hBV : BuildBVH (List.range ps.MeshInstances.length) 1 instLeafCb () =
      some (insN, ()) := hinst
  obtain ⟨N, R, tail, hrun, hRlen, -⟩ :=
    meshLoop_run ps.Meshes (initGeomState (totalVerticesOf ps.Meshes)) insN []
  have hfail : instanceLoop R ps.MeshInstances = none :=
    instanceLoop_none _ _ i pmi hget (by rw [hRlen]; simpa using hbad)
  have hpg : partitionGeometry ps = none := by
    unfold partitionGeometry
    rw [hBV]
    dsimp only
    rw [hrun]
    dsimp only
    rw [hfail]
  exact Compile_eq_panic hpg

theorem claim_C4_witness :
    (exDangling.MeshInstances[0]? = some (⟨5, 1⟩ : ParsedMeshInstance) ∧
      exDangling.Meshes.length ≤ 5) ∧ Compile exDangling = .panicked :=
  ⟨⟨rfl, by decide⟩, claim_C4_amended exDangling 0 ⟨5, 1⟩ rfl (by decide)⟩

/-- Claim C10: no input makes `Compile` return a non-nil error: the three
stages on the active path return nil errors unconditionally (the geometry
stage can only abort by panicking, which is not an error return), and the
one stage that does produce an error — `createLayeredMaterialTrees` — is
never invoked by `Compile`. -/
theorem claim_C10 :
    (∀ ps : ParsedScene, (Compile ps).isErr = false) ∧
      createLayeredMaterialTrees.isErr = true := by
  constructor
  · intro ps
    cases hg : partitionGeometry ps with
    | none => rw [Compile_eq_panic hg]; rfl
    | some g => rw [Compile_eq_ok hg]; rfl
  · rfl

/-- Claim C9, counterexample to the claim as stated: `align4` returns a Go
`uint32`, so at `n = 2^32 - 1` the loop reaches `2^32` and the conversion
truncates it to `0`, which is neither `≥ n` nor the smallest multiple of 4
above `n`. -/
theorem claim_C9_counterexample :
    align4 4294967295 = 0 ∧ ¬ (4294967295 ≤ align4 4294967295) := by
  refine ⟨?_, ?_⟩ <;> decide

/-- Claim C9 (amended): for every `n ≤ 2^32 - 4` — i.e. whenever the
mathematical result fits the `uint32` return type — `align4 n` is the
smallest multiple of 4 that is `≥ n`: it is `≥ n`, divisible by 4,
idempotent, and below every multiple of 4 that is `≥ n`. -/
theorem claim_C9_amended (n : Nat) (h : n ≤ U32MOD - 4) :
    n ≤ align4 n ∧ align4 n % 4 = 0 ∧ align4 (align4 n) = align4 n ∧
      ∀ m : Nat, m % 4 = 0 → n ≤ m → align4 n ≤ m := by
  have he : align4 n = alignN n := align4_eq_alignN h
  have hidem : align4 (align4 n) = align4 n := by
    rw [he]
    have h2 : alignN n ≤ U32MOD - 4 :=
      alignN_le_of_le (show (U32MOD - 4) % 4 = 0 by decide) h
    rw [align4_eq_alignN h2, alignN_idem]
  exact ⟨he ▸ alignN_ge n, he ▸ alignN_mod_four n, hidem,
    fun m hm hnm => he ▸ alignN_le_of_le hm hnm⟩

theorem claim_C9_witness :
    (5 ≤ U32MOD - 4) ∧ (5 ≤ align4 5 ∧ align4 5 % 4 = 0) :=
  ⟨by decide, (claim_C9_amended 5 (by decide)).1, (claim_C9_amended 5 (by decide)).2.1⟩

theorem align4_eq_alignN_of_lt {n : Nat} (h : alignN n < U32MOD) : align4 n = alignN n := by
  rw [align4_eq_alignN_mod]
  exact Nat.mod_eq_of_lt h

theorem listCopyAt_length (dst : List Nat) (off : Nat) (src : List Nat) :
    (listCopyAt dst off src).length = dst.length := by
  unfold listCopyAt
  simp only [List.length_append, List.length_take, List.length_drop]
  omega

/-- When the whole payload fits, Go's `copy` splices it in whole. -/
theorem listCopyAt_eq {dst : List Nat} {off : Nat} {src : List Nat}
    (h : off + src.length ≤ dst.length) :
    listCopyAt dst off src = dst.take off ++ src ++ dst.drop (off + src.length) := by
  unfold listCopyAt
  have hs : src.take (dst.length - off) = src := List.take_of_length_le (by omega)
  rw [hs]

theorem alignedTotal_cons (t : ParsedTexture) (rest : List ParsedTexture) :
    alignedTotal (t :: rest) = alignN t.Data.length + alignedTotal rest := by
  unfold alignedTotal
  rw [List.map_cons, List.sum_cons]

theorem texOffset_zero (ts : List ParsedTexture) : texOffset ts 0 = 0 := rfl

theorem texOffset_succ (t : ParsedTexture) (rest : List ParsedTexture) (j : Nat) :
    texOffset (t :: rest) (j + 1) = alignN t.Data.length + texOffset rest j := by
  unfold texOffset
  rw [List.take_succ_cons, List.map_cons, List.sum_cons]

theorem texOffset_mod_four (ts : List ParsedTexture) (i : Nat) :
    texOffset ts i % 4 = 0 := by
  unfold texOffset
  generalize ts.take i = l
  induction l with
  | nil => rfl
  | cons t rest ih =>
      rw [List.map_cons, List.sum_cons]
      have hm := alignN_mod_four t.Data.length
      omega

theorem texOffset_le_alignedTotal (ts : List ParsedTexture) (i : Nat) :
    texOffset ts i ≤ alignedTotal ts := by
  unfold texOffset alignedTotal
  conv_rhs => rw [← List.take_append_drop i ts]
  rw [List.map_append, List.sum_append]
  omega

theorem totalDataLenOf_mod (ts : List ParsedTexture) :
    totalDataLenOf ts = alignedTotal ts % U32MOD := by
  unfold totalDataLenOf
  suffices h : ∀ acc, acc < U32MOD →
      ts.foldl (fun a tex => (a + align4 tex.Data.length) % U32MOD) acc =
        (acc + alignedTotal ts) % U32MOD by
    simpa using h 0 (by unfold U32MOD; omega)
  induction ts with
  | nil =>
      intro acc hacc
      simp [alignedTotal, Nat.mod_eq_of_lt hacc]
  | cons t rest ih =>
      intro acc hacc
      rw [List.foldl_cons, ih _ (Nat.mod_lt _ (by unfold U32MOD; omega)),
        alignedTotal_cons, align4_eq_alignN_mod]
      unfold U32MOD
      omega

theorem bakeLoop_len :
    ∀ (ts : List ParsedTexture) (off : Nat) (data : List Nat) (meta : List TextureMetadata),
      (bakeTexturesLoop off data meta ts).1.length = data.length := by
  intro ts
  induction ts with
  | nil => intro off data meta; rfl
  | cons t rest ih =>
      intro off data meta
      unfold bakeTexturesLoop
      rw [ih, listCopyAt_length]

/-- The texture-baking loop's `uint32` offset update is exact while all
offsets fit. -/
theorem bakeLoop_offset_exact {off : Nat} {t : ParsedTexture} {rest : List ParsedTexture}
    (hb2 : off + alignedTotal (t :: rest) < U32MOD) :
    (off + align4 t.Data.length) % U32MOD = off + alignN t.Data.length := by
  rw [alignedTotal_cons] at hb2
  rw [align4_eq_alignN_of_lt (by omega), Nat.mod_eq_of_lt (by omega)]

theorem bakeLoop_preserve :
    ∀ (ts : List ParsedTexture) (off : Nat) (data : List Nat) (meta : List TextureMetadata),
      off + alignedTotal ts ≤ data.length → off + alignedTotal ts < U32MOD →
      ∀ i, i < off → (bakeTexturesLoop off data meta ts).1[i]? = data[i]? := by
  intro ts
  induction ts with
  | nil => intro off data meta hb1 hb2 i hi; rfl
  | cons t rest ih =>
      intro off data meta hb1 hb2 i hi
      have hcons := alignedTotal_cons t rest
      have hlen : t.Data.length ≤ alignN t.Data.length := alignN_ge _
      have hfit : off + t.Data.length ≤ data.length := by omega
      unfold bakeTexturesLoop
      rw [bakeLoop_offset_exact hb2]
      rw [ih _ _ _ (by rw [listCopyAt_length]; omega) (by omega) i (by omega)]
      rw [listCopyAt_eq hfit]
      rw [List.getElem?_append_left (by
        rw [List.length_append, List.length_take]
        omega)]
      rw [List.getElem?_append_left (by rw [List.length_take]; omega)]
      exact List.getElem?_take_of_lt hi

theorem bakeLoop_data :
    ∀ (ts : List ParsedTexture) (off : Nat) (data : List Nat) (meta : List TextureMetadata),
      off + alignedTotal ts ≤ data.length → off + alignedTotal ts < U32MOD →
      ∀ (j : Nat) (t : ParsedTexture), ts[j]? = some t →
      ∀ k, k < t.Data.length →
        (bakeTexturesLoop off data meta ts).1[off + texOffset ts j + k]? = t.Data[k]? := by
  intro ts
  induction ts with
  | nil => intro off data meta hb1 hb2 j t hget; cases j <;> simp at hget
  | cons t0 rest ih =>
      intro off data meta hb1 hb2 j t hget k hk
      have hcons := alignedTotal_cons t0 rest
      have hlen0 : t0.Data.length ≤ alignN t0.Data.length := alignN_ge _
      have hfit : off + t0.Data.length ≤ data.length := by omega
      unfold bakeTexturesLoop
      rw [bakeLoop_offset_exact hb2]
      cases j with
      | zero =>
          simp only [List.getElem?_cons_zero, Option.some.injEq] at hget
          subst hget
          rw [texOffset_zero, Nat.add_zero]
          rw [bakeLoop_preserve _ _ _ _ (by rw [listCopyAt_length]; omega) (by omega)
            (off + k) (by omega)]
          rw [listCopyAt_eq hfit]
          rw [List.getElem?_append_left (by
            rw [List.length_append, List.length_take]
            omega)]
          rw [List.getElem?_append_right (by rw [List.length_take]; omega)]
          rw [List.length_take]
          have hidx : off + k - min off data.length = k := by omega
          rw [hidx]
      | succ j =>
          simp only [List.getElem?_cons_succ] at hget
          have harith : off + texOffset (t0 :: rest) (j + 1) + k =
              off + alignN t0.Data.length + texOffset rest j + k := by
            rw [texOffset_succ]
            omega
          rw [harith]
          exact ih _ _ _ (by rw [listCopyAt_length]; omega) (by omega) j t hget k hk

theorem bakeLoop_meta :
    ∀ (ts : List ParsedTexture) (off : Nat) (data : List Nat) (meta : List TextureMetadata),
      off + alignedTotal ts < U32MOD →
      (bakeTexturesLoop off data meta ts).2.length = meta.length + ts.length ∧
      (∀ i, i < meta.length → (bakeTexturesLoop off data meta ts).2[i]? = meta[i]?) ∧
      (∀ (j : Nat) (t : ParsedTexture), ts[j]? = some t →
        (bakeTexturesLoop off data meta ts).2[meta.length + j]? =
          some ⟨t.Format, t.Width, t.Height, off + texOffset ts j⟩) := by
  intro ts
  induction ts with
  | nil =>
      intro off data meta hb2
      refine ⟨by simp [bakeTexturesLoop], fun i hi => rfl, ?_⟩
      intro j t hget
      cases j <;> simp at hget
  | cons t0 rest ih =>
      intro off data meta hb2
      have hcons := alignedTotal_cons t0 rest
      unfold bakeTexturesLoop
      rw [bakeLoop_offset_exact hb2]
      have hm1len : ∀ e : TextureMetadata, (meta ++ [e]).length = meta.length + 1 := by
        intro e
        rw [List.length_append]
        rfl
      obtain ⟨ih1, ih2, ih3⟩ := ih (off + alignN t0.Data.length) (listCopyAt data off t0.Data)
        (meta ++ [TextureMetadata.mk t0.Format t0.Width t0.Height off]) (by omega)
      refine ⟨by rw [ih1, hm1len, List.length_cons]; omega, ?_, ?_⟩
      · intro i hi
        rw [ih2 i (by rw [hm1len]; omega), List.getElem?_append_left hi]
      · intro j t hget
        cases j with
        | zero =>
            simp only [List.getElem?_cons_zero, Option.some.injEq] at hget
            subst hget
            have hmid := ih2 meta.length (by rw [hm1len]; omega)
            rw [Nat.add_zero, hmid, List.getElem?_concat_length, texOffset_zero,
              Nat.add_zero]
        | succ j =>
            simp only [List.getElem?_cons_succ] at hget
            have h3 := ih3 j t hget
            rw [hm1len] at h3
            have harith : meta.length + (j + 1) = meta.length + 1 + j := by omega
            rw [harith, h3, texOffset_succ]
            have hadd : off + (alignN t0.Data.length + texOffset rest j) =
                off + alignN t0.Data.length + texOffset rest j := by omega
            rw [hadd]

/-- Claim C5: after `bakeTextures`, metadata entries preserve format, width
and height in input order; each `DataOffset` is the sum of the padded
(`align4`-ed) lengths of all preceding payloads — hence a multiple of 4 —
the buffer length is the padded total, and each texture's original bytes
are recoverable by slicing `[DataOffset, DataOffset + payload length)`.
The hypothesis keeps the `uint32` running offset from wrapping, which makes
Go's 32-bit arithmetic exact. -/
theorem claim_C5 (ps : ParsedScene) (h : alignedTotal ps.Textures < U32MOD) :
    (bakeTextures ps).2.length = ps.Textures.length ∧
    (bakeTextures ps).1.length = alignedTotal ps.Textures ∧
    ∀ (i : Nat) (t : ParsedTexture), ps.Textures[i]? = some t →
      (bakeTextures ps).2[i]? =
        some ⟨t.Format, t.Width, t.Height, texOffset ps.Textures i⟩ ∧
      texOffset ps.Textures i % 4 = 0 ∧
      ((bakeTextures ps).1.drop (texOffset ps.Textures i)).take t.Data.length = t.Data := by
  have hdlen : (List.replicate (totalDataLenOf ps.Textures) (0 : Nat)).length =
      alignedTotal ps.Textures := by
    rw [List.length_replicate, totalDataLenOf_mod]
    exact Nat.mod_eq_of_lt h
  obtain ⟨hm1, hm2, hm3⟩ := bakeLoop_meta ps.Textures 0
    (List.replicate (totalDataLenOf ps.Textures) 0) [] (by omega)
  have hblen : (bakeTextures ps).1.length = alignedTotal ps.Textures := by
    unfold bakeTextures
    rw [bakeLoop_len, hdlen]
  refine ⟨by unfold bakeTextures; rw [hm1]; simp, hblen, ?_⟩
  intro i t hget
  have hoffle : texOffset ps.Textures i + t.Data.length ≤ alignedTotal ps.Textures := by
    -- the i-th aligned block lies inside the total
    have hsplit : alignedTotal ps.Textures =
        texOffset ps.Textures i + alignedTotal (ps.Textures.drop i) := by
      unfold texOffset alignedTotal
      conv_lhs => rw [← List.take_append_drop i ps.Textures]
      rw [List.map_append, List.sum_append]
    have hdropc : ps.Textures.drop i = t :: ps.Textures.drop (i + 1) := by
      have h0 : (ps.Textures.drop i)[0]? = some t := by
        rw [List.getElem?_drop, Nat.add_zero]
        exact hget
      cases hd : ps.Textures.drop i with
      | nil => rw [hd] at h0; simp at h0
      | cons t' rest' =>
          rw [hd] at h0
          simp only [List.getElem?_cons_zero, Option.some.injEq] at h0
          subst h0
          have : rest' = ps.Textures.drop (i + 1) := by
            have := congrArg (List.drop 1) hd
            rw [List.drop_drop] at this
            simpa using this.symm
          rw [this]
      
    have hbound : alignN t.Data.length + alignedTotal (ps.Textures.drop (i + 1)) =
        alignedTotal (ps.Textures.drop i) := by
      rw [hdropc, alignedTotal_cons]
    have := alignN_ge t.Data.length
    omega
  refine ⟨?_, texOffset_mod_four _ _, ?_⟩
  · have := hm3 i t hget
    simpa using this
  · apply List.ext_getElem?_iff.mpr
    intro k
    by_cases hk : k < t.Data.length
    · rw [List.getElem?_take_of_lt hk, List.getElem?_drop]
      have := bakeLoop_data ps.Textures 0 (List.replicate (totalDataLenOf ps.Textures) 0)
        [] (by omega) (by omega) i t hget k hk
      rw [Nat.zero_add] at this
      exact this
    · rw [List.getElem?_take_eq_none (by omega), List.getElem?_eq_none (by omega)]

theorem claim_C5_witness :
    (alignedTotal exScene2.Textures < U32MOD) ∧
      ((bakeTextures exScene2).1.length = alignedTotal exScene2.Textures ∧
        ((bakeTextures exScene2).2[2]?).map (fun m => m.DataOffset) = some 12 ∧
        (((bakeTextures exScene2).1.drop 4).take 5 = [20, 21, 22, 23, 24])) := by
  refine ⟨by decide, (claim_C5 exScene2 (by decide)).2.1, ?_, ?_⟩
  · have hmeta := ((claim_C5 exScene2 (by decide)).2.2 2
      ⟨3, 4, 4, [30, 31, 32, 33, 34, 35, 36, 37]⟩ rfl).1
    rw [hmeta]
    decide
  · have hdata := ((claim_C5 exScene2 (by decide)).2.2 1
      ⟨2, 1, 1, [20, 21, 22, 23, 24]⟩ rfl).2.2
    have hoff : texOffset exScene2.Textures 1 = 4 := by decide
    rw [hoff] at hdata
    exact hdata

theorem primStep_lengths (st : GeomState) (p : ParsedPrimitive) :
    (primStep st p).VertexList.length = st.VertexList.length ∧
    (primStep st p).NormalList.length = st.NormalList.length ∧
    (primStep st p).UvList.length = st.UvList.length ∧
    (primStep st p).MaterialIndex.length = st.MaterialIndex.length := by
  unfold primStep
  simp [List.length_set]

theorem foldl_lengths (l : List ParsedPrimitive) :
    ∀ st : GeomState,
      (l.foldl primStep st).VertexList.length = st.VertexList.length ∧
      (l.foldl primStep st).NormalList.length = st.NormalList.length ∧
      (l.foldl primStep st).UvList.length = st.UvList.length ∧
      (l.foldl primStep st).MaterialIndex.length = st.MaterialIndex.length := by
  induction l with
  | nil => intro st; exact ⟨rfl, rfl, rfl, rfl⟩
  | cons p rest ih =>
      intro st
      obtain ⟨h1, h2, h3, h4⟩ := ih (primStep st p)
      obtain ⟨g1, g2, g3, g4⟩ := primStep_lengths st p
      rw [List.foldl_cons]
      exact ⟨h1.trans g1, h2.trans g2, h3.trans g3, h4.trans g4⟩

/-- Flattening never touches the slots below the incoming cursor. -/
theorem foldl_preserve (l : List ParsedPrimitive) :
    ∀ (st : GeomState) (c : Nat),
      st.vertexOffset = 3 * c → st.primOffset = c → 3 * (c + l.length) < U32MOD →
      (∀ i, i < 3 * c →
        (l.foldl primStep st).VertexList[i]? = st.VertexList[i]? ∧
        (l.foldl primStep st).NormalList[i]? = st.NormalList[i]? ∧
        (l.foldl primStep st).UvList[i]? = st.UvList[i]?) ∧
      (∀ i, i < c → (l.foldl primStep st).MaterialIndex[i]? = st.MaterialIndex[i]?) := by
  induction l with
  | nil =>
      intro st c hvo hpo hb
      exact ⟨fun i hi => ⟨rfl, rfl, rfl⟩, fun i hi => rfl⟩
  | cons p rest ih =>
      intro st c hvo hpo hb
      have hvo1 : (primStep st p).vertexOffset = 3 * (c + 1) := by
        rw [primStep_vertexOffset, hvo, Nat.mod_eq_of_lt (by simp at hb; omega)]
        omega
      have hpo1 : (primStep st p).primOffset = c + 1 := by
        rw [primStep_primOffset, hpo, Nat.mod_eq_of_lt (by simp at hb; omega)]
      have hb1 : 3 * ((c + 1) + rest.length) < U32MOD := by
        simp at hb
        omega
      obtain ⟨ihv, ihm⟩ := ih (primStep st p) (c + 1) hvo1 hpo1 hb1
      constructor
      · intro i hi
        obtain ⟨p1, p2, p3⟩ := ihv i (by omega)
        rw [List.foldl_cons]
        refine ⟨p1.trans ?_, p2.trans ?_, p3.trans ?_⟩
        · unfold primStep
          dsimp only
          rw [List.getElem?_set_ne (by omega), List.getElem?_set_ne (by omega),
            List.getElem?_set_ne (by omega)]
        · unfold primStep
          dsimp only
          rw [List.getElem?_set_ne (by omega), List.getElem?_set_ne (by omega),
            List.getElem?_set_ne (by omega)]
        · unfold primStep
          dsimp only
          rw [List.getElem?_set_ne (by omega), List.getElem?_set_ne (by omega)]
      · intro i hi
        rw [List.foldl_cons]
        refine (ihm i (by omega)).trans ?_
        unfold primStep
        dsimp only
        rw [List.getElem?_set_ne (by omega)]

/-- Slots of index `3k + 2` in `UvList` are never written. -/
theorem foldl_uv_third (l : List ParsedPrimitive) :
    ∀ (st : GeomState) (c : Nat),
      st.vertexOffset = 3 * c → st.primOffset = c → 3 * (c + l.length) < U32MOD →
      ∀ i, i % 3 = 2 → (l.foldl primStep st).UvList[i]? = st.UvList[i]? := by
  induction l with
  | nil => intro st c hvo hpo hb i hm; rfl
  | cons p rest ih =>
      intro st c hvo hpo hb i hm
      have hvo1 : (primStep st p).vertexOffset = 3 * (c + 1) := by
        rw [primStep_vertexOffset, hvo, Nat.mod_eq_of_lt (by simp at hb; omega)]
        omega
      have hpo1 : (primStep st p).primOffset = c + 1 := by
        rw [primStep_primOffset, hpo, Nat.mod_eq_of_lt (by simp at hb; omega)]
      have hb1 : 3 * ((c + 1) + rest.length) < U32MOD := by
        simp at hb
        omega
      rw [List.foldl_cons]
      refine (ih (primStep st p) (c + 1) hvo1 hpo1 hb1 i hm).trans ?_
      unfold primStep
      dsimp only
      rw [hvo]
      rw [List.getElem?_set_ne (by omega), List.getElem?_set_ne (by omega)]

/-- What flattening writes: the `j`-th primitive of the work list owns the
three vertex slots starting at `3*(c+j)`; vertices and normals are promoted
with a zero 4th component, and only the first two UV slots are written. -/
theorem foldl_writes (l : List ParsedPrimitive) :
    ∀ (st : GeomState) (c : Nat),
      st.vertexOffset = 3 * c → st.primOffset = c → 3 * (c + l.length) < U32MOD →
      3 * (c + l.length) ≤ st.VertexList.length →
      3 * (c + l.length) ≤ st.NormalList.length →
      3 * (c + l.length) ≤ st.UvList.length →
      ∀ (j : Nat) (prim : ParsedPrimitive), l[j]? = some prim →
        (l.foldl primStep st).VertexList[3 * (c + j)]? = some (prim.Vertices.1.Vec4 0) ∧
        (l.foldl primStep st).VertexList[3 * (c + j) + 1]? = some (prim.Vertices.2.1.Vec4 0) ∧
        (l.foldl primStep st).VertexList[3 * (c + j) + 2]? = some (prim.Vertices.2.2.Vec4 0) ∧
        (l.foldl primStep st).NormalList[3 * (c + j)]? = some (prim.Normals.1.Vec4 0) ∧
        (l.foldl primStep st).NormalList[3 * (c + j) + 1]? = some (prim.Normals.2.1.Vec4 0) ∧
        (l.foldl primStep st).NormalList[3 * (c + j) + 2]? = some (prim.Normals.2.2.Vec4 0) ∧
        (l.foldl primStep st).UvList[3 * (c + j)]? = some prim.UVs.1 ∧
        (l.foldl primStep st).UvList[3 * (c + j) + 1]? = some prim.UVs.2.1 := by
  induction l with
  | nil =>
      intro st c hvo hpo hb hv hn hu j prim hget
      cases j <;> simp at hget
  | cons p rest ih =>
      intro st c hvo hpo hb hv hn hu j prim hget
      have hvo1 : (primStep st p).vertexOffset = 3 * (c + 1) := by
        rw [primStep_vertexOffset, hvo, Nat.mod_eq_of_lt (by simp at hb; omega)]
        omega
      have hpo1 : (primStep st p).primOffset = c + 1 := by
        rw [primStep_primOffset, hpo, Nat.mod_eq_of_lt (by simp at hb; omega)]
      have hb1 : 3 * ((c + 1) + rest.length) < U32MOD := by
        simp at hb
        omega
      obtain ⟨s1, s2, s3, s4⟩ := primStep_lengths st p
      cases j with
      | zero =>
          simp only [List.getElem?_cons_zero, Option.some.injEq] at hget
          subst hget
          rw [Nat.add_zero, List.foldl_cons]
          obtain ⟨ihv, ihm⟩ := foldl_preserve rest (primStep st p) (c + 1) hvo1 hpo1 hb1
          obtain ⟨p0v, p0n, p0u⟩ := ihv (3 * c) (by omega)
          obtain ⟨p1v, p1n, p1u⟩ := ihv (3 * c + 1) (by omega)
          obtain ⟨p2v, p2n, -⟩ := ihv (3 * c + 2) (by omega)
          have hvlt : 3 * c + 2 < st.VertexList.length := by simp at hv; omega
          have hnlt : 3 * c + 2 < st.NormalList.length := by simp at hn; omega
          have hult : 3 * c + 1 < st.UvList.length := by simp at hu; omega
          refine ⟨p0v.trans ?_, p1v.trans ?_, p2v.trans ?_, p0n.trans ?_, p1n.trans ?_,
            p2n.trans ?_, p0u.trans ?_, p1u.trans ?_⟩ <;>
            (unfold primStep; dsimp only; rw [hvo])
          · rw [List.getElem?_set_ne (by omega), List.getElem?_set_ne (by omega),
              List.getElem?_set_self (by omega)]
          · rw [List.getElem?_set_ne (by omega),
              List.getElem?_set_self (by rw [List.length_set]; omega)]
          · rw [List.getElem?_set_self (by rw [List.length_set, List.length_set]; omega)]
          · rw [List.getElem?_set_ne (by omega), List.getElem?_set_ne (by omega),
              List.getElem?_set_self (by omega)]
          · rw [List.getElem?_set_ne (by omega),
              List.getElem?_set_self (by rw [List.length_set]; omega)]
          · rw [List.getElem?_set_self (by rw [List.length_set, List.length_set]; omega)]
          · rw [List.getElem?_set_ne (by omega), List.getElem?_set_self (by omega)]
          · rw [List.getElem?_set_self (by rw [List.length_set]; omega)]
      | succ j =>
          simp only [List.getElem?_cons_succ] at hget
          have harith : 3 * (c + (j + 1)) = 3 * ((c + 1) + j) := by omega
          rw [List.foldl_cons, harith]
          exact ih (primStep st p) (c + 1) hvo1 hpo1 hb1
            (by rw [s1]; simp at hv ⊢; omega) (by rw [s2]; simp at hn ⊢; omega)
            (by rw [s3]; simp at hu ⊢; omega) j prim hget

theorem allPrims_eq_flatten (ps : ParsedScene) : allPrims ps = flattenPrims ps.Meshes := rfl

theorem allPrims_length (ps : ParsedScene) : (allPrims ps).length = totalPrims ps := by
  rw [allPrims_eq_flatten, flattenPrims_length]
  rfl

/-- The flat arrays of a compiled scene are the fold of `primStep` over all
primitives, in mesh order, starting from the zeroed pre-allocation. -/
theorem geom_final_state {ps : ParsedScene} {g : GeomOut}
    (h : partitionGeometry ps = some g) :
    g.VertexList =
      ((allPrims ps).foldl primStep (initGeomState (totalVerticesOf ps.Meshes))).VertexList ∧
    g.NormalList =
      ((allPrims ps).foldl primStep (initGeomState (totalVerticesOf ps.Meshes))).NormalList ∧
    g.UvList =
      ((allPrims ps).foldl primStep (initGeomState (totalVerticesOf ps.Meshes))).UvList ∧
    g.MaterialIndex =
      ((allPrims ps).foldl primStep (initGeomState (totalVerticesOf ps.Meshes))).MaterialIndex
    := by
  obtain ⟨instNodes, gs, nodes, roots, instances, hinst, hloop, hresolve, -, hV, hN, hU, hM,
    -, -⟩ := partitionGeometry_inv h
  obtain ⟨N, R, tail, hrun, -, -⟩ :=
    meshLoop_run ps.Meshes (initGeomState (totalVerticesOf ps.Meshes)) instNodes []
  rw [hrun] at hloop
  simp only [Option.some.injEq, Prod.mk.injEq] at hloop
  obtain ⟨hgs, -, -⟩ := hloop
  rw [allPrims_eq_flatten]
  rw [hV, hN, hU, hM, ← hgs]
  exact ⟨rfl, rfl, rfl, rfl⟩

theorem initGeomState_cursors (tv : Nat) :
    (initGeomState tv).vertexOffset = 3 * 0 ∧ (initGeomState tv).primOffset = 0 :=
  ⟨rfl, rfl⟩

/-- Claim C7: the flat buffers have one 4-component entry per triangle
vertex in `VertexList` and `NormalList`, one 2-component entry per vertex
in `UvList`, and one entry per primitive in `MaterialIndex`
(`3 * total_primitive_count` and `total_primitive_count` entries
respectively); every vertex and normal written for a primitive vertex is
the 3-component input promoted to 4 components with the 4th component
zero.  The size hypothesis keeps the `uint32` vertex cursor exact. -/
theorem claim_C7 (ps : ParsedScene) (h : compiledOkB ps = true)
    (hsize : 3 * totalPrims ps < U32MOD) :
    (compiledVertexList ps).length = 3 * totalPrims ps ∧
    (compiledNormalList ps).length = 3 * totalPrims ps ∧
    (compiledUvList ps).length = 3 * totalPrims ps ∧
    (compiledMaterialIndex ps).length = totalPrims ps ∧
    ∀ (p : Nat) (prim : ParsedPrimitive), (allPrims ps)[p]? = some prim →
      (compiledVertexList ps)[3 * p]? = some (prim.Vertices.1.Vec4 0) ∧
      (compiledVertexList ps)[3 * p + 1]? = some (prim.Vertices.2.1.Vec4 0) ∧
      (compiledVertexList ps)[3 * p + 2]? = some (prim.Vertices.2.2.Vec4 0) ∧
      (compiledNormalList ps)[3 * p]? = some (prim.Normals.1.Vec4 0) ∧
      (compiledNormalList ps)[3 * p + 1]? = some (prim.Normals.2.1.Vec4 0) ∧
      (compiledNormalList ps)[3 * p + 2]? = some (prim.Normals.2.2.Vec4 0) := by
  obtain ⟨g, hg⟩ := compiledOkB_some h
  obtain ⟨hV, hN, hU, hM⟩ := geom_final_state hg
  have htv : totalVerticesOf ps.Meshes = 3 * totalPrims ps := totalVerticesOf_eq ps.Meshes
  have hb : 3 * (0 + (allPrims ps).length) < U32MOD := by
    rw [allPrims_length]
    simpa using hsize
  obtain ⟨f1, f2, f3, f4⟩ :=
    foldl_lengths (allPrims ps) (initGeomState (totalVerticesOf ps.Meshes))
  have hinitlen : 3 * (0 + (allPrims ps).length) ≤
      (initGeomState (totalVerticesOf ps.Meshes)).VertexList.length := by
    unfold initGeomState
    dsimp only
    rw [List.length_replicate, htv, allPrims_length]
    omega
  have hinitlenN : 3 * (0 + (allPrims ps).length) ≤
      (initGeomState (totalVerticesOf ps.Meshes)).NormalList.length := hinitlen
  have hinitlenU : 3 * (0 + (allPrims ps).length) ≤
      (initGeomState (totalVerticesOf ps.Meshes)).UvList.length := by
    unfold initGeomState
    dsimp only
    rw [List.length_replicate, htv, allPrims_length]
    omega
  refine ⟨?_, ?_, ?_, ?_, ?_⟩
  · rw [compiledVertexList_eq hg, hV, f1]
    unfold initGeomState
    dsimp only
    rw [List.length_replicate, htv]
  · rw [compiledNormalList_eq hg, hN, f2]
    unfold initGeomState
    dsimp only
    rw [List.length_replicate, htv]
  · rw [compiledUvList_eq hg, hU, f3]
    unfold initGeomState
    dsimp only
    rw [List.length_replicate, htv]
  · rw [compiledMaterialIndex_eq hg, hM, f4]
    unfold initGeomState
    dsimp only
    rw [List.length_replicate, htv, Nat.mul_div_cancel_left _ (by omega)]
  · intro p prim hget
    have hw := foldl_writes (allPrims ps) (initGeomState (totalVerticesOf ps.Meshes)) 0
      rfl rfl hb hinitlen hinitlenN hinitlenU p prim hget
    simp only [Nat.zero_add] at hw
    rw [compiledVertexList_eq hg, hV, compiledNormalList_eq hg, hN]
    exact ⟨hw.1, hw.2.1, hw.2.2.1, hw.2.2.2.1, hw.2.2.2.2.1, hw.2.2.2.2.2.1⟩

theorem claim_C7_witness :
    (compiledOkB exScene2 = true ∧ 3 * totalPrims exScene2 < U32MOD) ∧
      ((compiledVertexList exScene2).length = 3 * totalPrims exScene2 ∧
        (compiledMaterialIndex exScene2).length = totalPrims exScene2 ∧
        (compiledVertexList exScene2)[0]? = some (exPrim0.Vertices.1.Vec4 0)) :=
  ⟨⟨by decide, by decide⟩,
    (claim_C7 exScene2 (by decide) (by decide)).1,
    (claim_C7 exScene2 (by decide) (by decide)).2.2.2.1,
    ((claim_C7 exScene2 (by decide) (by decide)).2.2.2.2 0 exPrim0 rfl).1⟩

/-- Claim C6, counterexample to the claim as stated: the compiled scene
`exScene2` begins with a primitive whose third authored UV coordinate is
`(1, 1)`, yet the third of its three UV slots holds the zero value — the
leaf callback writes only `UVs[0]` and `UVs[1]` (compiler.go lines 139-140)
while advancing the vertex cursor by 3. -/
theorem claim_C6_counterexample :
    compiledOkB exScene2 = true ∧
    (compiledUvList exScene2)[2]? ≠ some exPrim0.UVs.2.2 ∧
    (compiledUvList exScene2)[2]? = some ((0 : ℚ), (0 : ℚ)) := by
  refine ⟨by decide, by decide, by decide⟩

/-- Claim C6 (amended): `UvList` holds one 2-component slot per triangle
vertex, but the leaf callback fills only the first two of each primitive's
three consecutive slots with `UVs[0]` and `UVs[1]`; the third slot is never
written and keeps its zero initialization. -/
theorem claim_C6_amended (ps : ParsedScene) (h : compiledOkB ps = true)
    (hsize : 3 * totalPrims ps < U32MOD) :
    (compiledUvList ps).length = 3 * totalPrims ps ∧
    ∀ (p : Nat) (prim : ParsedPrimitive), (allPrims ps)[p]? = some prim →
      (compiledUvList ps)[3 * p]? = some prim.UVs.1 ∧
      (compiledUvList ps)[3 * p + 1]? = some prim.UVs.2.1 ∧
      (compiledUvList ps)[3 * p + 2]? = some ((0 : ℚ), (0 : ℚ)) := by
  obtain ⟨g, hg⟩ := compiledOkB_some h
  obtain ⟨hV, hN, hU, hM⟩ := geom_final_state hg
  have htv : totalVerticesOf ps.Meshes = 3 * totalPrims ps := totalVerticesOf_eq ps.Meshes
  have hb : 3 * (0 + (allPrims ps).length) < U32MOD := by
    rw [allPrims_length]
    simpa using hsize
  obtain ⟨f1, f2, f3, f4⟩ :=
    foldl_lengths (allPrims ps) (initGeomState (totalVerticesOf ps.Meshes))
  have hinitlen : 3 * (0 + (allPrims ps).length) ≤
      (initGeomState (totalVerticesOf ps.Meshes)).VertexList.length := by
    unfold initGeomState
    dsimp only
    rw [List.length_replicate, htv, allPrims_length]
    omega
  have hinitlenU : 3 * (0 + (allPrims ps).length) ≤
      (initGeomState (totalVerticesOf ps.Meshes)).UvList.length := by
    unfold initGeomState
    dsimp only
    rw [List.length_replicate, htv, allPrims_length]
    omega
  constructor
  · rw [compiledUvList_eq hg, hU, f3]
    unfold initGeomState
    dsimp only
    rw [List.length_replicate, htv]
  · intro p prim hget
    have hplt : p < totalPrims ps := by
      have hx := hget
      rw [List.getElem?_eq_some] at hx
      obtain ⟨hlt, -⟩ := hx
      rwa [allPrims_length] at hlt
    have hw := foldl_writes (allPrims ps) (initGeomState (totalVerticesOf ps.Meshes)) 0
      rfl rfl hb hinitlen hinitlen hinitlenU p prim hget
    simp only [Nat.zero_add] at hw
    have hthird := foldl_uv_third (allPrims ps) (initGeomState (totalVerticesOf ps.Meshes)) 0
      rfl rfl hb (3 * p + 2) (by omega)
    have hrep : (initGeomState (totalVerticesOf ps.Meshes)).UvList[3 * p + 2]? =
        some ((0 : ℚ), (0 : ℚ)) := by
      unfold initGeomState
      dsimp only
      exact List.getElem?_replicate_of_lt (by omega)
    rw [compiledUvList_eq hg, hU]
    exact ⟨hw.2.2.2.2.2.2.1, hw.2.2.2.2.2.2.2, hthird.trans hrep⟩

theorem claim_C6_witness :
    (compiledOkB exScene2 = true ∧ 3 * totalPrims exScene2 < U32MOD) ∧
      ((compiledUvList exScene2)[3]? = some exPrim1.UVs.1 ∧
        (compiledUvList exScene2)[4]? = some exPrim1.UVs.2.1 ∧
        (compiledUvList exScene2)[5]? = some ((0 : ℚ), (0 : ℚ))) :=
  ⟨⟨by decide, by decide⟩,
    (claim_C6_amended exScene2 (by decide) (by decide)).2 1 exPrim1 rfl⟩

/-- Over the exact rationals the modelled inverse is a true left inverse
whenever the transform is invertible. -/
theorem Mat4inv_mul {A : Mat4} (h : A.det ≠ 0) : Mat4inv A * A = 1 := by
  have he : Mat4inv A = A⁻¹ := by
    rw [Matrix.inv_def, Ring.inverse_eq_inv]
    rfl
  rw [he]
  exact Matrix.nonsing_inv_mul A (isUnit_iff_ne_zero.mpr h)

/-- Claim C8: every compiled mesh instance stores the inverse of its
authored transform, so (for an invertible authored transform, computed here
over exact rationals) the stored transform times the original is exactly —
hence within any floating-point tolerance — the identity matrix. -/
theorem claim_C8 (ps : ParsedScene) (i : Nat) (pmi : ParsedMeshInstance)
    (h : compiledOkB ps = true) (hget : ps.MeshInstances[i]? = some pmi)
    (hdet : pmi.Transform.det ≠ 0) :
    ((compiledInstances ps)[i]?).map (fun inst => inst.Transform) =
      some (Mat4inv pmi.Transform) ∧
    ((compiledInstances ps)[i]?).map (fun inst => inst.Transform * pmi.Transform) =
      some 1 := by
  obtain ⟨g, hg⟩ := compiledOkB_some h
  obtain ⟨instNodes, gs, nodes, roots, instances, hinst, hloop, hresolve, -, -, -, -, -,
    hInstL, -⟩ := partitionGeometry_inv hg
  obtain ⟨hlen, hres⟩ := instanceLoop_get _ _ _ hresolve
  obtain ⟨root, hroot, hentry⟩ := hres i pmi hget
  rw [compiledInstances_eq hg, hInstL, hentry]
  refine ⟨rfl, ?_⟩
  simp only [Option.map_some']
  rw [Mat4inv_mul hdet]

theorem claim_C8_witness :
    (compiledOkB exScene2 = true ∧
      exScene2.MeshInstances[0]? = some (⟨0, 1⟩ : ParsedMeshInstance) ∧
      Matrix.det (1 : Mat4) ≠ 0) ∧
      ((compiledInstances exScene2)[0]?).map
        (fun inst => inst.Transform * (1 : Mat4)) = some 1 :=
  ⟨⟨by decide, rfl, by simp⟩,
    (claim_C8 exScene2 0 ⟨0, 1⟩ (by decide) rfl (by simp)).2⟩
